import Mathlib

/-!
# Session tasks of `SessionController.cpp`

A shallow embedding of the session-task framework of Konsole's
`SessionController.cpp`: `SessionTask`, `SaveHistoryTask` (its `execute`,
`jobDataRequested` and `jobResult` slots) and `SearchHistoryTask::execute`.

Conventions of the embedding.

* Objects living outside the task (sessions, their emulation, the file dialog,
  the transfer jobs) are passed in explicitly: a `Heap` says which sessions
  are alive, a `Nat → DialogAnswer` says what the file dialog answers at each
  prompt.
* Calls on collaborators and emitted signals are recorded, in program order,
  as a list of `Event`s returned next to the new state.
* `int` values are integers; every `int` addition or subtraction of the source
  is wrapped to 32 bits by `int32`.
* A null-pointer dereference or a failed `Q_ASSERT` is the result `none`.
-/

namespace Konsole

/-! ## Machine integers -/

/-- Two's-complement wrap of an integer to the range of a 32-bit `int`. -/
def int32 (x : Int) : Int := (x + 2147483648) % 4294967296 - 2147483648

/-- The constant `LINES_PER_REQUEST` of `SaveHistoryTask::jobDataRequested`. -/
def LINES_PER_REQUEST : Int := 500

/-! ## Collaborators -/

/-- A `TerminalCharacterDecoder*`: null, or one of the two decoders that
`SaveHistoryTask::execute` allocates. -/
inductive DecoderPtr where
  | null
  | plainText
  | html
  deriving DecidableEq, Repr

/-- The part of `Emulation` the tasks use: `lines()`, the text that
`writeToStream(stream, decoder, startLine, endLine)` writes, and whether
`findTextNext(str, forward, caseSensitive, regExp)` finds a match. -/
structure Emulation where
  lines : Int
  writeToStream : DecoderPtr → Int → Int → String
  findTextNext : String → Bool → Bool → Bool → Bool

/-- The part of `Session` the tasks use. -/
structure Session where
  title : String
  emulation : Emulation

/-- A `QPointer<Session>`: `none` is the null pointer, `some a` the address of a
session object, which may have been destroyed since. -/
abbrev SessionPtr := Option Nat

/-- The session objects that are alive, by address. -/
abbrev Heap := Nat → Option Session

/-- Dereferencing a `QPointer<Session>`: `none` when the pointer is null or the
object it pointed to has been destroyed (the pointer then compares false). -/
def deref (heap : Heap) (p : SessionPtr) : Option Session := p.bind heap

/-- A `KJob*`. -/
abbrev KJobPtr := Nat

/-- The part of `KUrl` that `SaveHistoryTask::execute` looks at. -/
structure KUrl where
  text : String
  isValid : Bool
  isLocalFile : Bool
  deriving DecidableEq, Repr

/-- The value `QDialog::Accepted`. -/
def Accepted : Int := 1

/-- What the file dialog yields at one prompt: the result of `exec()`, the
`selectedUrl()`, the `currentMimeFilter()`, and the job that `KIO::put` returns
for that URL when it is called. -/
structure DialogAnswer where
  result : Int
  selectedUrl : KUrl
  currentMimeFilter : String
  job : KJobPtr

/-- Calls on collaborators and emitted signals, as they occur in the source. -/
inductive Event where
  | dialogExec (caption : String)
  | messageBox (text : String)
  | put (url : KUrl) (permissions : Int) (overwrite resume showProgress : Bool)
  | connectJob (job : KJobPtr)
  | dialogDeleteLater
  | writeToStream (session : SessionPtr) (decoder : DecoderPtr) (startLine endLine : Int)
  | deleteDecoder (decoder : DecoderPtr)
  | completed
  | deleteLater
  | findTextBegin (session : SessionPtr)
  | findTextNext (session : SessionPtr) (pattern : String) (forward caseSensitive regExp : Bool)
  | foundMatch (session : SessionPtr) (startLine startColumn endLine endColumn : Int)
  deriving DecidableEq, Repr

/-! ## SessionTask -/

/-- The members of `SessionTask`. -/
structure SessionTask where
  _autoDelete : Bool
  _sessions : List SessionPtr
  deriving DecidableEq, Repr

/-- The constructor `SessionTask::SessionTask`. -/
def SessionTask.new : SessionTask := ⟨false, []⟩

/-- The method `SessionTask::setAutoDelete`. -/
def SessionTask.setAutoDelete (t : SessionTask) (enable : Bool) : SessionTask :=
  { t with _autoDelete := enable }

/-- The method `SessionTask::autoDelete`. -/
def SessionTask.autoDelete (t : SessionTask) : Bool := t._autoDelete

/-- The method `SessionTask::addSession`: `_sessions << session`. -/
def SessionTask.addSession (t : SessionTask) (session : SessionPtr) : SessionTask :=
  { t with _sessions := t._sessions ++ [session] }

/-- The method `SessionTask::sessions`. -/
def SessionTask.sessions (t : SessionTask) : List SessionPtr := t._sessions

/-! ## The job registry `QHash<KJob*,SaveJob>` -/

/-- The class `SaveHistoryTask::SaveJob`. -/
structure SaveJob where
  session : SessionPtr
  lastLineFetched : Int
  decoder : DecoderPtr
  deriving DecidableEq, Repr

/-- A value-initialised `SaveJob`, as `QHash::operator[]` creates for a missing
key: null session, zero cursor, null decoder. -/
def SaveJob.default : SaveJob := ⟨none, 0, DecoderPtr.null⟩

/-- The hash `_jobSession`, as an association list; only `value`, `insert`,
`remove`, `index` and `assign` below are used on it. -/
abbrev JobRegistry := List (KJobPtr × SaveJob)

/-- The entry stored for a key, if any. -/
def JobRegistry.value (r : JobRegistry) (job : KJobPtr) : Option SaveJob :=
  match r with
  | [] => none
  | (k, v) :: rest => if k = job then some v else JobRegistry.value rest job

/-- The method `QHash::remove`. -/
def JobRegistry.remove (r : JobRegistry) (job : KJobPtr) : JobRegistry :=
  r.filter (fun e => decide (e.1 ≠ job))

/-- The method `QHash::insert`: the value of an existing key is replaced. -/
def JobRegistry.insert (r : JobRegistry) (job : KJobPtr) (v : SaveJob) : JobRegistry :=
  (job, v) :: JobRegistry.remove r job

/-- The method `QHash::operator[]`: a missing key is first inserted with a
value-initialised entry. Returns the hash afterwards and the entry referred to. -/
def JobRegistry.index (r : JobRegistry) (job : KJobPtr) : JobRegistry × SaveJob :=
  match JobRegistry.value r job with
  | some v => (r, v)
  | none => (JobRegistry.insert r job SaveJob.default, SaveJob.default)

/-- Assignment through the reference returned by `operator[]`. -/
def JobRegistry.assign (r : JobRegistry) (job : KJobPtr) (v : SaveJob) : JobRegistry :=
  r.map (fun e => if e.1 = job then (job, v) else e)

/-! ## SaveHistoryTask -/

/-- The members of `SaveHistoryTask`: those of `SessionTask` and `_jobSession`. -/
structure SaveHistoryTask extends SessionTask where
  _jobSession : JobRegistry
  deriving DecidableEq, Repr

/-- The constructor `SaveHistoryTask::SaveHistoryTask`. -/
def SaveHistoryTask.new : SaveHistoryTask := ⟨SessionTask.new, []⟩

/-- One pass through the body of the `while` loop of `SaveHistoryTask::execute`,
for the session `session` and the dialog answer `ans`. -/
def SaveHistoryTask.executeSession (heap : Heap) (ans : DialogAnswer) (session : SessionPtr)
    (reg : JobRegistry) : Option (JobRegistry × List Event) :=
  match deref heap session with
  | none => none
  | some s =>
    let caption := Event.dialogExec ("Save Output from " ++ s.title)
    if ans.result ≠ Accepted then
      some (reg, [caption])
    else if !ans.selectedUrl.isValid then
      some (reg, [caption,
        Event.messageBox "%1 is an invalid URL, the output could not be saved."])
    else
      let jobInfo : SaveJob :=
        { session := session
          lastLineFetched := -1
          decoder := if ans.currentMimeFilter = "text/html" then DecoderPtr.html
                     else DecoderPtr.plainText }
      some (JobRegistry.insert reg ans.job jobInfo,
        [caption,
         Event.put ans.selectedUrl (-1) true false (!ans.selectedUrl.isLocalFile),
         Event.connectJob ans.job])

/-- The `while ( iter.hasNext() )` loop of `SaveHistoryTask::execute`; `i` counts
the prompts shown so far. -/
def SaveHistoryTask.executeLoop (heap : Heap) (dialog : Nat → DialogAnswer) :
    Nat → List SessionPtr → JobRegistry → Option (JobRegistry × List Event)
  | _, [], reg => some (reg, [])
  | i, session :: rest, reg =>
    match SaveHistoryTask.executeSession heap (dialog i) session reg with
    | none => none
    | some (reg1, ev1) =>
      match SaveHistoryTask.executeLoop heap dialog (i + 1) rest reg1 with
      | none => none
      | some (reg2, ev2) => some (reg2, ev1 ++ ev2)

/-- The method `SaveHistoryTask::execute`. -/
def SaveHistoryTask.execute (t : SaveHistoryTask) (heap : Heap) (dialog : Nat → DialogAnswer) :
    Option (SaveHistoryTask × List Event) :=
  match SaveHistoryTask.executeLoop heap dialog 0 t.sessions t._jobSession with
  | none => none
  | some (reg, ev) => some ({ t with _jobSession := reg }, ev ++ [Event.dialogDeleteLater])

/-- What one call of the slot `jobDataRequested` leaves behind: the task, the
bytes written to `data` (which the transfer job passes in empty), and the
events. -/
structure PullResult where
  task : SaveHistoryTask
  data : String
  events : List Event
  deriving DecidableEq, Repr

/-- The slot `SaveHistoryTask::jobDataRequested`. -/
def SaveHistoryTask.jobDataRequested (t : SaveHistoryTask) (heap : Heap) (job : KJobPtr) :
    PullResult :=
  let (reg, info) := JobRegistry.index t._jobSession job
  match deref heap info.session with
  | some s =>
    let sessionLines := s.emulation.lines
    if int32 (sessionLines - 1) = info.lastLineFetched then
      ⟨{ t with _jobSession := reg }, "", []⟩
    else
      let copyUpToLine := min (int32 (info.lastLineFetched + LINES_PER_REQUEST))
        (int32 (sessionLines - 1))
      let startLine := int32 (info.lastLineFetched + 1)
      let written := s.emulation.writeToStream info.decoder startLine copyUpToLine
      let data := if copyUpToLine ≤ int32 (sessionLines - 1) then written ++ "\n" else written
      ⟨{ t with _jobSession :=
            JobRegistry.assign reg job { info with lastLineFetched := copyUpToLine } },
        data,
        [Event.writeToStream info.session info.decoder startLine copyUpToLine]⟩
  | none => ⟨{ t with _jobSession := reg }, "", []⟩

/-- The slot `SaveHistoryTask::jobResult`; `error` and `errorString` are what
`job->error()` and `job->errorString()` return. The decoder deleted is the one
the entry held when `operator[]` was evaluated. -/
def SaveHistoryTask.jobResult (t : SaveHistoryTask) (job : KJobPtr) (error : Int)
    (errorString : String) : SaveHistoryTask × List Event :=
  let report := if error ≠ 0 then
      [Event.messageBox ("A problem occurred when saving the output.\n" ++ errorString)]
    else []
  let (reg, info) := JobRegistry.index t._jobSession job
  let reg1 := JobRegistry.remove reg job
  ({ t with _jobSession := reg1 },
    report ++ [Event.deleteDecoder info.decoder, Event.completed]
      ++ (if t.autoDelete then [Event.deleteLater] else []))

/-! ## The transfer job driving the slots -/

/-- The transfer job's data phase: the slot `jobDataRequested` is called again
and again until it leaves `data` empty. Returns the result of every call, the
last one being the empty one; `none` when `fuel` calls were not enough. -/
def pullUntilEmpty (heap : Heap) (job : KJobPtr) : Nat → SaveHistoryTask → Option (List PullResult)
  | 0, _ => none
  | fuel + 1, t =>
    let r := t.jobDataRequested heap job
    if r.data = "" then some [r]
    else
      match pullUntilEmpty heap job fuel r.task with
      | none => none
      | some rs => some (r :: rs)

/-- Successive calls of `jobDataRequested` for one job, the `i`-th call seeing
the `i`-th heap of the list (the buffer may have grown in between). -/
def pullEach (job : KJobPtr) : List Heap → SaveHistoryTask → List PullResult
  | [], _ => []
  | heap :: rest, t =>
    let r := t.jobDataRequested heap job
    r :: pullEach job rest r.task

/-- Delivery of the terminal results `(job, error, errorString)` to the slot
`jobResult`, in order. -/
def deliverResults : List (KJobPtr × Int × String) → SaveHistoryTask → SaveHistoryTask × List Event
  | [], t => (t, [])
  | (job, error, errorString) :: rest, t =>
    let (t1, ev1) := t.jobResult job error errorString
    let (t2, ev2) := deliverResults rest t1
    (t2, ev1 ++ ev2)

/-! ## SearchHistoryTask -/

/-- The enum `SearchHistoryTask::SearchDirection`. -/
inductive SearchDirection where
  | Forwards
  | Backwards
  deriving DecidableEq, Repr

/-- The members of `SearchHistoryTask`; `_regExp` is the pattern text. -/
structure SearchHistoryTask extends SessionTask where
  _regExp : String
  _matchRegExp : Bool
  _matchCase : Bool
  _direction : SearchDirection
  deriving DecidableEq, Repr

/-- The constructor `SearchHistoryTask::SearchHistoryTask`. -/
def SearchHistoryTask.new : SearchHistoryTask :=
  ⟨SessionTask.new, "", false, false, SearchDirection.Forwards⟩

/-- The method `SearchHistoryTask::setMatchCase`. -/
def SearchHistoryTask.setMatchCase (t : SearchHistoryTask) (matchCase : Bool) :
    SearchHistoryTask :=
  { t with _matchCase := matchCase }

/-- The method `SearchHistoryTask::matchCase`. -/
def SearchHistoryTask.matchCase (t : SearchHistoryTask) : Bool := t._matchCase

/-- The method `SearchHistoryTask::setMatchRegExp`. -/
def SearchHistoryTask.setMatchRegExp (t : SearchHistoryTask) (matchRegExp : Bool) :
    SearchHistoryTask :=
  { t with _matchRegExp := matchRegExp }

/-- The method `SearchHistoryTask::matchRegExp`. -/
def SearchHistoryTask.matchRegExp (t : SearchHistoryTask) : Bool := t._matchRegExp

/-- The method `SearchHistoryTask::setSearchDirection`. -/
def SearchHistoryTask.setSearchDirection (t : SearchHistoryTask) (direction : SearchDirection) :
    SearchHistoryTask :=
  { t with _direction := direction }

/-- The method `SearchHistoryTask::searchDirection`. -/
def SearchHistoryTask.searchDirection (t : SearchHistoryTask) : SearchDirection := t._direction

/-- The method `SearchHistoryTask::setRegExp`. -/
def SearchHistoryTask.setRegExp (t : SearchHistoryTask) (expression : String) :
    SearchHistoryTask :=
  { t with _regExp := expression }

/-- The method `SearchHistoryTask::regExp`. -/
def SearchHistoryTask.regExp (t : SearchHistoryTask) : String := t._regExp

/-- The method `SearchHistoryTask::execute`: `none` when `sessions().first()` is
taken of an empty list or the `Q_ASSERT` on it fails. What `findTextNext`
returns is not looked at. -/
def SearchHistoryTask.execute (t : SearchHistoryTask) (heap : Heap) :
    Option (SearchHistoryTask × List Event) :=
  match t.sessions with
  | [] => none
  | first :: _ =>
    match deref heap first with
    | none => none
    | some s =>
      if t._regExp ≠ "" then
        let _found := s.emulation.findTextNext t._regExp true false false
        some (t, [Event.findTextBegin first, Event.findTextNext first t._regExp true false false])
      else
        some (t, [])

/-! ## Reading a run -/

/-- The line ranges `(startLine, endLine)` of the `writeToStream` calls in a
list of events, in order. -/
def decodedRanges : List Event → List (Int × Int)
  | [] => []
  | Event.writeToStream _ _ a b :: rest => (a, b) :: decodedRanges rest
  | _ :: rest => decodedRanges rest

/-- The line indices `a, a+1, ..` (`n` of them). -/
def linesFrom (a : Int) : Nat → List Int
  | 0 => []
  | n + 1 => a :: linesFrom (a + 1) n

/-- The line indices of the inclusive range `[a, b]`. -/
def rangeLines (p : Int × Int) : List Int := linesFrom p.1 (p.2 - p.1 + 1).toNat

/-- The line indices of a list of inclusive ranges, range after range. -/
def linesOfRanges : List (Int × Int) → List Int
  | [] => []
  | p :: rest => rangeLines p ++ linesOfRanges rest

/-- The events of a list of calls, call after call. -/
def eventsOf : List PullResult → List Event
  | [] => []
  | r :: rest => r.events ++ eventsOf rest

/-- The task after a list of calls that started from `t`. -/
def taskAfter : List PullResult → SaveHistoryTask → SaveHistoryTask
  | [], t => t
  | r :: rest, _ => taskAfter rest r.task

/-- The ranges of `k` successive requests on a buffer of `n` lines, from the
cursor `c`: each starts after the cursor and ends 500 lines later or on the
last line. -/
def chunkRanges (n : Int) : Nat → Int → List (Int × Int)
  | 0, _ => []
  | k + 1, c => (c + 1, min (c + 500) (n - 1)) :: chunkRanges n k (min (c + 500) (n - 1))

/-- Whether the characters `p` occur, in a row, somewhere in the given ones. -/
def containsText (p : List Char) : List Char → Bool
  | [] => p.isEmpty
  | c :: cs => p.isPrefixOf (c :: cs) || containsText p cs

/-- The characters of a text, in lower case unless the case matters. -/
def searchKey (caseSensitive : Bool) (text : String) : List Char :=
  if caseSensitive then text.data else text.data.map Char.toLower

/-- An emulation over a given list of lines whose decoders write the lines of
the range, one per line of text, and whose search looks for the text as it
stands in some line. -/
def bufferOf (ls : List String) : Emulation :=
  ⟨ls.length, fun _ a b => "\n".intercalate ((ls.drop a.toNat).take (b - a + 1).toNat),
    fun str _ caseSensitive _ =>
      ls.any (fun l => containsText (searchKey caseSensitive str) (searchKey caseSensitive l))⟩

/-- A heap with one session, at address 1, showing the given lines. -/
def heapOf (ls : List String) : Heap :=
  fun a => if a = 1 then some ⟨"shell", bufferOf ls⟩ else none

/-- A heap without any session. -/
def emptyHeap : Heap := fun _ => none

/-- A task with one job, 7, for the session at address 1, with the cursor `c`. -/
def oneJobTask (c : Int) : SaveHistoryTask :=
  ⟨⟨false, [some 1]⟩, [(7, ⟨some 1, c, DecoderPtr.plainText⟩)]⟩

/-- The line count that the session behind a pointer shows in a heap, if the
session is alive. -/
def lineCount (heap : Heap) (p : SessionPtr) : Option Int :=
  (deref heap p).map (fun s => s.emulation.lines)

/-- A heap with two sessions, at the addresses 1 and 2. -/
def twoSessionHeap : Heap :=
  fun a => if a = 1 then some ⟨"first", bufferOf ["a"]⟩
    else if a = 2 then some ⟨"second", bufferOf ["b"]⟩ else none

/-- A fresh task to which the sessions at 1 and 2 were added. -/
def twoSessionTask : SaveHistoryTask :=
  ⟨(SessionTask.new.addSession (some 1)).addSession (some 2), []⟩

/-- A user who cancels every prompt. -/
def declineAll : Nat → DialogAnswer :=
  fun _ => ⟨0, ⟨"", false, false⟩, "text/plain", 0⟩

/-- A user who accepts every prompt with a valid local URL and plain text; the
`i`-th transfer job is `7 + i`. -/
def acceptAll : Nat → DialogAnswer :=
  fun i => ⟨1, ⟨"file:///tmp/history", true, true⟩, "text/plain", 7 + i⟩

/-- A user who cancels the first prompt and accepts the second, as HTML. -/
def declineFirst : Nat → DialogAnswer :=
  fun i => if i = 0 then ⟨0, ⟨"", false, false⟩, "text/plain", 0⟩
    else ⟨1, ⟨"file:///tmp/history.html", true, true⟩, "text/html", 7 + i⟩

/-- The task `twoSessionTask` with a job for each session: 7 and 8. -/
def twoJobTask : SaveHistoryTask :=
  ⟨⟨false, [some 1, some 2]⟩,
    [(8, ⟨some 2, -1, DecoderPtr.plainText⟩), (7, ⟨some 1, -1, DecoderPtr.plainText⟩)]⟩

/-- A search task for the session at address 1 with the given pattern and the
settings a fresh task has. -/
def searchTask (pattern : String) : SearchHistoryTask :=
  { SearchHistoryTask.new with
    toSessionTask := SessionTask.new.addSession (some 1) }.setRegExp pattern

/-- The search task for "error" set to search backwards, with the case and as a
regular expression. -/
def configuredSearchTask : SearchHistoryTask :=
  (((searchTask "error").setSearchDirection SearchDirection.Backwards).setMatchCase
    true).setMatchRegExp true

/-- The task `twoJobTask` when it deletes itself. -/
def twoJobAutoTask : SaveHistoryTask :=
  ⟨⟨true, [some 1, some 2]⟩,
    [(8, ⟨some 2, -1, DecoderPtr.plainText⟩), (7, ⟨some 1, -1, DecoderPtr.plainText⟩)]⟩

/-- How often `deleteLater` is called in a list of events. -/
def deleteLaterCount (ev : List Event) : Nat := ev.count Event.deleteLater

/-- The `foundMatch` signals in a list of events, in order. -/
def matchResults : List Event → List (SessionPtr × Int × Int × Int × Int)
  | [] => []
  | Event.foundMatch s a b c d :: rest => (s, a, b, c, d) :: matchResults rest
  | _ :: rest => matchResults rest

/-- Whether a handle has an entry in the registry. -/
def JobRegistry.contains (r : JobRegistry) (job : KJobPtr) : Bool :=
  (JobRegistry.value r job).isSome

/-- How often the signal `completed` occurs in a list of events. -/
def completedCount (ev : List Event) : Nat := ev.count Event.completed

/-- The captions of the file-dialog prompts in a list of events, in order. -/
def promptCaptions : List Event → List String
  | [] => []
  | Event.dialogExec c :: rest => c :: promptCaptions rest
  | _ :: rest => promptCaptions rest

/-- The texts handed to the message box in a list of events, in order. -/
def messages : List Event → List String
  | [] => []
  | Event.messageBox m :: rest => m :: messages rest
  | _ :: rest => messages rest

/-- The decoder that `execute` chooses for a mime filter. -/
def chosenDecoder (mimeFilter : String) : DecoderPtr :=
  if mimeFilter = "text/html" then DecoderPtr.html else DecoderPtr.plainText

/-- Whether a prompt's answer leads `execute` to create a job. -/
def DialogAnswer.creates (a : DialogAnswer) : Bool :=
  decide (a.result = Accepted) && a.selectedUrl.isValid

/-! ## Lemmas on machine integers and the registry -/

theorem int32_eq_self (x : Int) (hlo : -2147483648 ≤ x) (hhi : x ≤ 2147483647) :
    int32 x = x := by
  unfold int32
  omega

theorem remove_cons (k : KJobPtr) (v : SaveJob) (rest : JobRegistry) (job : KJobPtr) :
    JobRegistry.remove ((k, v) :: rest) job =
      if k = job then JobRegistry.remove rest job else (k, v) :: JobRegistry.remove rest job := by
  by_cases hk : k = job <;> simp [JobRegistry.remove, List.filter_cons, hk]

theorem value_cons (k : KJobPtr) (v : SaveJob) (rest : JobRegistry) (job : KJobPtr) :
    JobRegistry.value ((k, v) :: rest) job =
      if k = job then some v else JobRegistry.value rest job := rfl

theorem assign_cons (k : KJobPtr) (v : SaveJob) (rest : JobRegistry) (job : KJobPtr)
    (w : SaveJob) :
    JobRegistry.assign ((k, v) :: rest) job w =
      (if k = job then (job, w) else (k, v)) :: JobRegistry.assign rest job w := rfl

theorem value_remove_self (r : JobRegistry) (job : KJobPtr) :
    JobRegistry.value (JobRegistry.remove r job) job = none := by
  induction r with
  | nil => rfl
  | cons e rest ih =>
    obtain ⟨k, v⟩ := e
    rw [remove_cons]
    by_cases hk : k = job
    · rw [if_pos hk]
      exact ih
    · rw [if_neg hk, value_cons, if_neg hk]
      exact ih

theorem value_remove_ne (r : JobRegistry) (job h : KJobPtr) (hne : h ≠ job) :
    JobRegistry.value (JobRegistry.remove r job) h = JobRegistry.value r h := by
  induction r with
  | nil => rfl
  | cons e rest ih =>
    obtain ⟨k, v⟩ := e
    rw [remove_cons]
    by_cases hk : k = job
    · have hkh : ¬ k = h := fun hh => hne (hh.symm.trans hk)
      rw [if_pos hk, value_cons, if_neg hkh]
      exact ih
    · rw [if_neg hk, value_cons, value_cons]
      by_cases hkh : k = h
      · rw [if_pos hkh, if_pos hkh]
      · rw [if_neg hkh, if_neg hkh]
        exact ih

theorem value_insert_self (r : JobRegistry) (job : KJobPtr) (v : SaveJob) :
    JobRegistry.value (JobRegistry.insert r job v) job = some v := by
  simp [JobRegistry.insert, value_cons]

theorem value_insert_ne (r : JobRegistry) (job h : KJobPtr) (v : SaveJob) (hne : h ≠ job) :
    JobRegistry.value (JobRegistry.insert r job v) h = JobRegistry.value r h := by
  have hne2 : ¬ job = h := fun hh => hne hh.symm
  rw [JobRegistry.insert, value_cons, if_neg hne2]
  exact value_remove_ne r job h hne

theorem index_of_value (r : JobRegistry) (job : KJobPtr) (v : SaveJob)
    (hv : JobRegistry.value r job = some v) : JobRegistry.index r job = (r, v) := by
  simp [JobRegistry.index, hv]

theorem value_assign_self (r : JobRegistry) (job : KJobPtr) (v w : SaveJob)
    (hv : JobRegistry.value r job = some v) :
    JobRegistry.value (JobRegistry.assign r job w) job = some w := by
  induction r with
  | nil => simp [JobRegistry.value] at hv
  | cons e rest ih =>
    obtain ⟨k, u⟩ := e
    rw [assign_cons]
    by_cases hk : k = job
    · rw [if_pos hk, value_cons, if_pos rfl]
    · rw [value_cons, if_neg hk] at hv
      rw [if_neg hk, value_cons, if_neg hk]
      exact ih hv

theorem value_assign_ne (r : JobRegistry) (job h : KJobPtr) (w : SaveJob) (hne : h ≠ job) :
    JobRegistry.value (JobRegistry.assign r job w) h = JobRegistry.value r h := by
  have hne2 : ¬ job = h := fun hh => hne hh.symm
  induction r with
  | nil => rfl
  | cons e rest ih =>
    obtain ⟨k, u⟩ := e
    rw [assign_cons]
    by_cases hk : k = job
    · have hkh : ¬ k = h := fun hh => hne (hh.symm.trans hk)
      rw [if_pos hk, value_cons, if_neg hne2, value_cons, if_neg hkh]
      exact ih
    · rw [if_neg hk, value_cons, value_cons]
      by_cases hkh : k = h
      · rw [if_pos hkh, if_pos hkh]
      · rw [if_neg hkh, if_neg hkh]
        exact ih

/-! ## One call of `jobDataRequested` -/

/-- A registered job whose session is gone: nothing is read, written or changed. -/
theorem fetch_dead (t : SaveHistoryTask) (heap : Heap) (job : KJobPtr) (info : SaveJob)
    (hreg : JobRegistry.value t._jobSession job = some info)
    (hdead : deref heap info.session = none) :
    t.jobDataRequested heap job = ⟨t, "", []⟩ := by
  simp [SaveHistoryTask.jobDataRequested, index_of_value _ _ _ hreg, hdead]

/-- A registered job with a live session whose cursor is on the last line. -/
theorem fetch_exhausted (t : SaveHistoryTask) (heap : Heap) (job : KJobPtr) (info : SaveJob)
    (s : Session)
    (hreg : JobRegistry.value t._jobSession job = some info)
    (hlive : deref heap info.session = some s)
    (hlo : 0 ≤ s.emulation.lines) (hhi : s.emulation.lines ≤ 2147483647)
    (hlast : info.lastLineFetched = s.emulation.lines - 1) :
    t.jobDataRequested heap job = ⟨t, "", []⟩ := by
  have h32 : int32 (s.emulation.lines - 1) = s.emulation.lines - 1 :=
    int32_eq_self _ (by omega) (by omega)
  simp [SaveHistoryTask.jobDataRequested, index_of_value _ _ _ hreg, hlive, h32, hlast]

/-- A registered job with a live session and lines left to send. -/
theorem fetch_more (t : SaveHistoryTask) (heap : Heap) (job : KJobPtr) (info : SaveJob)
    (s : Session)
    (hreg : JobRegistry.value t._jobSession job = some info)
    (hlive : deref heap info.session = some s)
    (hhi : s.emulation.lines ≤ 2147483148)
    (hc : -1 ≤ info.lastLineFetched)
    (hlast : info.lastLineFetched < s.emulation.lines - 1) :
    t.jobDataRequested heap job =
      ⟨⟨t.toSessionTask, JobRegistry.assign t._jobSession job
          ⟨info.session, min (info.lastLineFetched + 500) (s.emulation.lines - 1),
            info.decoder⟩⟩,
        s.emulation.writeToStream info.decoder (info.lastLineFetched + 1)
          (min (info.lastLineFetched + 500) (s.emulation.lines - 1)) ++ "\n",
        [Event.writeToStream info.session info.decoder (info.lastLineFetched + 1)
          (min (info.lastLineFetched + 500) (s.emulation.lines - 1))]⟩ := by
  have h32 : int32 (s.emulation.lines - 1) = s.emulation.lines - 1 :=
    int32_eq_self _ (by omega) (by omega)
  have h32a : int32 (info.lastLineFetched + 500) = info.lastLineFetched + 500 :=
    int32_eq_self _ (by omega) (by omega)
  have h32b : int32 (info.lastLineFetched + 1) = info.lastLineFetched + 1 :=
    int32_eq_self _ (by omega) (by omega)
  have hne : ¬ (s.emulation.lines - 1 = info.lastLineFetched) := by omega
  simp [SaveHistoryTask.jobDataRequested, index_of_value _ _ _ hreg, hlive, h32, h32a, h32b,
    hne, LINES_PER_REQUEST]

/-! ## Repeated calls on a buffer of fixed length -/

theorem append_newline_ne_empty (w : String) : w ++ "\n" ≠ "" := by
  intro h
  have hl := congrArg String.length h
  rw [String.length_append] at hl
  have h1 : "\n".length = 1 := rfl
  have h2 : "".length = 0 := rfl
  omega

/-- The data phase of a job on a buffer of `n` lines, from the cursor `c`: with
fuel for one call more than `k = ceil((n-1-c)/500)`, the calls are `k` non-empty
ones, each a single decoder call over the next range, and then the empty one. -/
theorem pull_run (heap : Heap) (job : KJobPtr) (s : Session) (ptr : SessionPtr)
    (dec : DecoderPtr) (hlive : deref heap ptr = some s)
    (h0 : 0 ≤ s.emulation.lines) (hhi : s.emulation.lines ≤ 2147483148) :
    ∀ (k fuel : Nat) (t : SaveHistoryTask) (c : Int),
      JobRegistry.value t._jobSession job = some ⟨ptr, c, dec⟩ →
      -1 ≤ c → c ≤ s.emulation.lines - 1 →
      k = ((s.emulation.lines - 1 - c).toNat + 499) / 500 → k < fuel →
      ∃ rs last, pullUntilEmpty heap job fuel t = some (rs ++ [last]) ∧
        last = ⟨taskAfter rs t, "", []⟩ ∧
        JobRegistry.value (taskAfter rs t)._jobSession job
          = some ⟨ptr, s.emulation.lines - 1, dec⟩ ∧
        decodedRanges (eventsOf (rs ++ [last])) = chunkRanges s.emulation.lines k c ∧
        rs.length = k ∧
        ∀ r ∈ rs, r.data ≠ "" ∧ ∃ a b, r.events = [Event.writeToStream ptr dec a b] ∧
          r.data = s.emulation.writeToStream dec a b ++ "\n" := by
  intro k
  induction k with
  | zero =>
    intro fuel t c hreg hc1 hc2 hk hfuel
    obtain ⟨f, rfl⟩ : ∃ f, fuel = f + 1 := ⟨fuel - 1, by omega⟩
    have hc : c = s.emulation.lines - 1 := by omega
    have hstep := fetch_exhausted t heap job ⟨ptr, c, dec⟩ s hreg hlive h0 (by omega) hc
    refine ⟨[], ⟨t, "", []⟩, ?_, rfl, ?_, ?_, rfl, ?_⟩
    · simp [pullUntilEmpty, hstep]
    · rw [← hc]
      exact hreg
    · simp [eventsOf, decodedRanges, chunkRanges]
    · intro r hr
      simp at hr
  | succ k ih =>
    intro fuel t c hreg hc1 hc2 hk hfuel
    obtain ⟨f, rfl⟩ : ∃ f, fuel = f + 1 := ⟨fuel - 1, by omega⟩
    have hlt : c < s.emulation.lines - 1 := by
      by_contra hcon
      have hz : (s.emulation.lines - 1 - c).toNat = 0 := by omega
      rw [hz] at hk
      omega
    have hstep := fetch_more t heap job ⟨ptr, c, dec⟩ s hreg hlive hhi hc1 hlt
    simp only at hstep
    have hreg1 : JobRegistry.value
        (JobRegistry.assign t._jobSession job
          ⟨ptr, min (c + 500) (s.emulation.lines - 1), dec⟩) job
        = some ⟨ptr, min (c + 500) (s.emulation.lines - 1), dec⟩ :=
      value_assign_self _ _ _ _ hreg
    have hk1 : k = ((s.emulation.lines - 1 - min (c + 500) (s.emulation.lines - 1)).toNat
        + 499) / 500 := by
      omega
    obtain ⟨rs, last, hrun, hlast, hfin, hranges, hlen, hall⟩ :=
      ih f ⟨t.toSessionTask, JobRegistry.assign t._jobSession job
          ⟨ptr, min (c + 500) (s.emulation.lines - 1), dec⟩⟩
        (min (c + 500) (s.emulation.lines - 1)) hreg1 (by omega) (by omega) hk1 (by omega)
    refine ⟨t.jobDataRequested heap job :: rs, last, ?_, ?_, ?_, ?_, ?_, ?_⟩
    · simp only [pullUntilEmpty]
      rw [hstep]
      simp only [append_newline_ne_empty, if_false]
      rw [hrun]
      rfl
    · rw [hlast, hstep]
      rfl
    · rw [hstep]
      exact hfin
    · rw [List.cons_append, eventsOf, hstep]
      simp only [List.singleton_append, decodedRanges, chunkRanges]
      exact congrArg _ hranges
    · simp [hlen]
    · intro r hr
      rcases List.mem_cons.mp hr with h | h
      · rw [h, hstep]
        exact ⟨append_newline_ne_empty _, _, _, rfl, rfl⟩
      · exact hall r h

/-! ## The ranges of a run -/

theorem linesFrom_append (a : Int) (m n : Nat) :
    linesFrom a (m + n) = linesFrom a m ++ linesFrom (a + m) n := by
  induction m generalizing a with
  | zero => simp [linesFrom]
  | succ m ih =>
    have h : m + 1 + n = (m + n) + 1 := by omega
    rw [h, linesFrom, linesFrom, ih (a + 1), List.cons_append]
    have h2 : a + 1 + (m : Int) = a + ((m + 1 : Nat) : Int) := by
      push_cast
      ring
    rw [h2]

theorem chunkRanges_length (n : Int) (k : Nat) (c : Int) :
    (chunkRanges n k c).length = k := by
  induction k generalizing c with
  | zero => rfl
  | succ k ih => simp [chunkRanges, ih]

theorem chunkRanges_bounds (n : Int) (k : Nat) :
    ∀ c : Int, c ≤ n - 1 → k = ((n - 1 - c).toNat + 499) / 500 →
      ∀ p ∈ chunkRanges n k c, c < p.1 ∧ p.1 ≤ p.2 ∧ p.2 - p.1 < 500 ∧ p.2 ≤ n - 1 := by
  induction k with
  | zero =>
    intro c _ _ p hp
    simp [chunkRanges] at hp
  | succ k ih =>
    intro c hc hk p hp
    have hlt : c < n - 1 := by
      by_contra hcon
      have hz : (n - 1 - c).toNat = 0 := by omega
      rw [hz] at hk
      omega
    rw [chunkRanges] at hp
    rcases List.mem_cons.mp hp with h | h
    · subst h
      simp only
      omega
    · have := ih (min (c + 500) (n - 1)) (by omega) (by omega) p h
      omega

theorem chunkRanges_head (n : Int) (k : Nat) (c : Int) (p : Int × Int)
    (hp : (chunkRanges n k c).head? = some p) : p.1 = c + 1 := by
  cases k with
  | zero => simp [chunkRanges] at hp
  | succ k =>
    simp only [chunkRanges, List.head?_cons, Option.some.injEq] at hp
    rw [← hp]

theorem chunkRanges_chain (n : Int) (k : Nat) (c : Int) :
    List.Chain' (fun p q : Int × Int => q.1 = p.2 + 1) (chunkRanges n k c) := by
  induction k generalizing c with
  | zero => simp [chunkRanges]
  | succ k ih =>
    rw [chunkRanges, List.chain'_cons']
    refine ⟨?_, ih _⟩
    intro q hq
    exact chunkRanges_head n k _ q (by simpa using hq)

theorem chunkRanges_last (n : Int) (k : Nat) :
    ∀ c : Int, c ≤ n - 1 → k = ((n - 1 - c).toNat + 499) / 500 →
      ∀ p, (chunkRanges n k c).getLast? = some p → p.2 = n - 1 := by
  induction k with
  | zero =>
    intro c _ _ p hp
    simp [chunkRanges] at hp
  | succ k ih =>
    intro c hc hk p hp
    have hlt : c < n - 1 := by
      by_contra hcon
      have hz : (n - 1 - c).toNat = 0 := by omega
      rw [hz] at hk
      omega
    cases k with
    | zero =>
      simp only [chunkRanges, List.getLast?_singleton, Option.some.injEq] at hp
      rw [← hp]
      simp only
      omega
    | succ j =>
      have hrec := ih (min (c + 500) (n - 1)) (by omega) (by omega) p
      apply hrec
      rw [chunkRanges] at hp
      rw [chunkRanges] at hp ⊢
      rw [List.getLast?_cons_cons] at hp
      exact hp

theorem chunkRanges_lines (n : Int) (k : Nat) :
    ∀ c : Int, -1 ≤ c → c ≤ n - 1 → k = ((n - 1 - c).toNat + 499) / 500 →
      linesOfRanges (chunkRanges n k c) = linesFrom (c + 1) (n - 1 - c).toNat := by
  induction k with
  | zero =>
    intro c _ hc hk
    have hz : (n - 1 - c).toNat = 0 := by omega
    rw [hz]
    rfl
  | succ k ih =>
    intro c hc1 hc hk
    have hlt : c < n - 1 := by
      by_contra hcon
      have hz : (n - 1 - c).toNat = 0 := by omega
      rw [hz] at hk
      omega
    have hrec := ih (min (c + 500) (n - 1)) (by omega) (by omega) (by omega)
    rw [chunkRanges, linesOfRanges, hrec, rangeLines]
    simp only
    have hsplit : (n - 1 - c).toNat
        = (min (c + 500) (n - 1) - (c + 1) + 1).toNat
          + (n - 1 - min (c + 500) (n - 1)).toNat := by
      omega
    have hnext : min (c + 500) (n - 1) + 1
        = c + 1 + (((min (c + 500) (n - 1) - (c + 1) + 1).toNat : Nat) : Int) := by
      omega
    rw [hsplit, linesFrom_append, ← hnext]

theorem decodedRanges_append (xs ys : List Event) :
    decodedRanges (xs ++ ys) = decodedRanges xs ++ decodedRanges ys := by
  induction xs with
  | nil => rfl
  | cons e rest ih => cases e <;> simp [decodedRanges, ih]

theorem mem_decodedRanges (rs : List PullResult) (r : PullResult) (hr : r ∈ rs)
    (ptr : SessionPtr) (dec : DecoderPtr) (a b : Int)
    (hev : r.events = [Event.writeToStream ptr dec a b]) :
    (a, b) ∈ decodedRanges (eventsOf rs) := by
  induction rs with
  | nil => simp at hr
  | cons x rest ih =>
    rw [eventsOf, decodedRanges_append]
    rcases List.mem_cons.mp hr with h | h
    · subst h
      rw [hev]
      simp [decodedRanges]
    · exact List.mem_append_right _ (ih h)

theorem eventsOf_append (xs ys : List PullResult) :
    eventsOf (xs ++ ys) = eventsOf xs ++ eventsOf ys := by
  induction xs with
  | nil => rfl
  | cons e rest ih => simp [eventsOf, ih]

/-! ## Claims on a buffer of fixed length -/

/-- C1: on a buffer whose line count stays `N ≥ 0`, a job that starts at
`lastLineFetched = -1` and is asked for data until it leaves the chunk empty
(which happens within `ceil(N/500) + 1` calls) hands the decoder the ranges
`[a_1,b_1], [a_2,b_2], ..` with `a_1 = 0`, `a_i ≤ b_i`, `a_(i+1) = b_i + 1` and
last `b = N-1`; range after range they are the line indices `0, 1, .., N-1`,
each once and in increasing order. (`N + 499` fits an `int`.) -/
theorem C1_ranges_cover_every_line_once (t : SaveHistoryTask) (heap : Heap) (job : KJobPtr)
    (info : SaveJob) (s : Session) (N : Int) (fuel : Nat)
    (hreg : JobRegistry.value t._jobSession job = some info)
    (hstart : info.lastLineFetched = -1)
    (hlive : deref heap info.session = some s)
    (hlines : s.emulation.lines = N)
    (h0 : 0 ≤ N) (hhi : N ≤ 2147483148)
    (hfuel : (N.toNat + 499) / 500 < fuel) :
    ∃ rs, pullUntilEmpty heap job fuel t = some rs ∧
      (∀ p, (decodedRanges (eventsOf rs)).head? = some p → p.1 = 0) ∧
      (∀ p ∈ decodedRanges (eventsOf rs), p.1 ≤ p.2) ∧
      List.Chain' (fun p q : Int × Int => q.1 = p.2 + 1) (decodedRanges (eventsOf rs)) ∧
      (∀ p, (decodedRanges (eventsOf rs)).getLast? = some p → p.2 = N - 1) ∧
      (0 < N → decodedRanges (eventsOf rs) ≠ []) ∧
      linesOfRanges (decodedRanges (eventsOf rs)) = linesFrom 0 N.toNat := by
  subst hlines
  obtain ⟨ptr, c, dec⟩ := info
  simp only at hstart hlive
  subst hstart
  have hk : (s.emulation.lines.toNat + 499) / 500
      = ((s.emulation.lines - 1 - (-1)).toNat + 499) / 500 := by
    congr 3
    omega
  obtain ⟨rs, last, hrun, -, -, hranges, -, -⟩ :=
    pull_run heap job s ptr dec hlive h0 hhi _ fuel t (-1) hreg (le_refl _) (by omega) hk hfuel
  refine ⟨rs ++ [last], hrun, ?_, ?_, ?_, ?_, ?_, ?_⟩
  · intro p hp
    rw [hranges] at hp
    have := chunkRanges_head _ _ _ p hp
    omega
  · intro p hp
    rw [hranges] at hp
    exact (chunkRanges_bounds _ _ (-1) (by omega) hk p hp).2.1
  · rw [hranges]
    exact chunkRanges_chain _ _ _
  · intro p hp
    rw [hranges] at hp
    exact chunkRanges_last _ _ (-1) (by omega) hk p hp
  · intro hpos hnil
    have hlen := chunkRanges_length s.emulation.lines
      ((s.emulation.lines.toNat + 499) / 500) (-1)
    rw [← hranges, hnil] at hlen
    simp only [List.length_nil] at hlen
    omega
  · rw [hranges, chunkRanges_lines _ _ (-1) (le_refl _) (by omega) hk]
    have h1 : (-1 : Int) + 1 = 0 := by norm_num
    have h2 : (s.emulation.lines - 1 - (-1)).toNat = s.emulation.lines.toNat := by
      congr 1
      omega
    rw [h1, h2]

/-- C2: on a buffer whose line count stays `N ≥ 0`, a job that starts at
`lastLineFetched = -1` gets exactly `ceil(N/500)` calls that leave a non-empty
chunk, each a single decoder call over at most 500 lines; after them
`lastLineFetched = N-1` and the next call leaves the chunk empty.
(`N + 499` fits an `int`.) -/
theorem C2_chunk_count (t : SaveHistoryTask) (heap : Heap) (job : KJobPtr)
    (info : SaveJob) (s : Session) (N : Int) (fuel : Nat)
    (hreg : JobRegistry.value t._jobSession job = some info)
    (hstart : info.lastLineFetched = -1)
    (hlive : deref heap info.session = some s)
    (hlines : s.emulation.lines = N)
    (h0 : 0 ≤ N) (hhi : N ≤ 2147483148)
    (hfuel : (N.toNat + 499) / 500 < fuel) :
    ∃ rs last, pullUntilEmpty heap job fuel t = some (rs ++ [last]) ∧
      (rs.length : Int) = (N + 499) / 500 ∧
      N ≤ 500 * (rs.length : Int) ∧ 500 * (rs.length : Int) < N + 500 ∧
      (∀ r ∈ rs, r.data ≠ "" ∧ ∃ a b,
        r.events = [Event.writeToStream info.session info.decoder a b] ∧
        a ≤ b ∧ b - a + 1 ≤ 500) ∧
      JobRegistry.value (taskAfter rs t)._jobSession job
        = some ⟨info.session, N - 1, info.decoder⟩ ∧
      (taskAfter rs t).jobDataRequested heap job = ⟨taskAfter rs t, "", []⟩ ∧
      last = ⟨taskAfter rs t, "", []⟩ := by
  subst hlines
  obtain ⟨ptr, c, dec⟩ := info
  simp only at hstart hlive
  subst hstart
  have hk : (s.emulation.lines.toNat + 499) / 500
      = ((s.emulation.lines - 1 - (-1)).toNat + 499) / 500 := by
    congr 3
    omega
  obtain ⟨rs, last, hrun, hlast, hfin, hranges, hlen, hall⟩ :=
    pull_run heap job s ptr dec hlive h0 hhi _ fuel t (-1) hreg (le_refl _) (by omega) hk hfuel
  refine ⟨rs, last, hrun, ?_, ?_, ?_, ?_, hfin, ?_, hlast⟩
  · rw [hlen]
    omega
  · rw [hlen]
    omega
  · rw [hlen]
    omega
  · intro r hr
    obtain ⟨hne, a, b, hev, -⟩ := hall r hr
    refine ⟨hne, a, b, hev, ?_⟩
    have hmem : (a, b) ∈ decodedRanges (eventsOf (rs ++ [last])) := by
      rw [eventsOf_append, decodedRanges_append]
      exact List.mem_append_left _ (mem_decodedRanges rs r hr ptr dec a b hev)
    rw [hranges] at hmem
    have := chunkRanges_bounds _ _ (-1) (by omega) hk (a, b) hmem
    simp only at this
    omega
  · exact fetch_exhausted _ heap job ⟨ptr, s.emulation.lines - 1, dec⟩ s hfin hlive h0
      (by omega) rfl

/-- C1 at a three-line buffer: the hypotheses hold and the run decodes the
lines 0, 1, 2. -/
theorem C1_witness :
    ∃ rs, pullUntilEmpty (heapOf ["a", "b", "c"]) 7 2 (oneJobTask (-1)) = some rs ∧
      linesOfRanges (decodedRanges (eventsOf rs)) = linesFrom 0 3 := by
  obtain ⟨rs, hrun, -, -, -, -, -, hlines⟩ :=
    C1_ranges_cover_every_line_once (oneJobTask (-1)) (heapOf ["a", "b", "c"]) 7
      ⟨some 1, -1, DecoderPtr.plainText⟩ ⟨"shell", bufferOf ["a", "b", "c"]⟩ 3 2
      rfl rfl rfl rfl (by decide) (by decide) (by decide)
  exact ⟨rs, hrun, hlines⟩

/-- C2 at a buffer of 501 lines: the hypotheses hold and two calls leave a
non-empty chunk. -/
theorem C2_witness :
    ∃ rs last, pullUntilEmpty (heapOf (List.replicate 501 "x")) 7 3 (oneJobTask (-1))
        = some (rs ++ [last]) ∧ (rs.length : Int) = 2 := by
  obtain ⟨rs, last, hrun, hlen, -⟩ :=
    C2_chunk_count (oneJobTask (-1)) (heapOf (List.replicate 501 "x")) 7
      ⟨some 1, -1, DecoderPtr.plainText⟩ ⟨"shell", bufferOf (List.replicate 501 "x")⟩ 501 3
      rfl rfl rfl (by simp only [bufferOf, List.length_replicate]; rfl)
      (by decide) (by decide) (by decide)
  exact ⟨rs, last, hrun, by rw [hlen]; decide⟩

/-! ## Single calls: exhausted job, last chunk, dead session -/

/-- C3: for a registered job with a live session and
`lastLineFetched = lineCount - 1`, `jobDataRequested` leaves the chunk empty,
makes no call at all (the decoder is not invoked) and leaves the whole task
unchanged: the job's `lastLineFetched`, session and decoder, and the registry. -/
theorem C3_exhausted_fetch_changes_nothing (t : SaveHistoryTask) (heap : Heap) (job : KJobPtr)
    (info : SaveJob) (s : Session)
    (hreg : JobRegistry.value t._jobSession job = some info)
    (hlive : deref heap info.session = some s)
    (h0 : 0 ≤ s.emulation.lines) (hhi : s.emulation.lines ≤ 2147483647)
    (hlast : info.lastLineFetched = s.emulation.lines - 1) :
    (t.jobDataRequested heap job).data = "" ∧
      (t.jobDataRequested heap job).events = [] ∧
      (t.jobDataRequested heap job).task = t ∧
      (t.jobDataRequested heap job).task._jobSession = t._jobSession ∧
      JobRegistry.value (t.jobDataRequested heap job).task._jobSession job = some info := by
  rw [fetch_exhausted t heap job info s hreg hlive h0 hhi hlast]
  exact ⟨rfl, rfl, rfl, rfl, hreg⟩

/-- C3 at a three-line buffer with the cursor on line 2. -/
theorem C3_witness :
    ((oneJobTask 2).jobDataRequested (heapOf ["a", "b", "c"]) 7).data = "" ∧
      ((oneJobTask 2).jobDataRequested (heapOf ["a", "b", "c"]) 7).events = [] ∧
      ((oneJobTask 2).jobDataRequested (heapOf ["a", "b", "c"]) 7).task = oneJobTask 2 :=
  have h := C3_exhausted_fetch_changes_nothing (oneJobTask 2) (heapOf ["a", "b", "c"]) 7
    ⟨some 1, 2, DecoderPtr.plainText⟩ ⟨"shell", bufferOf ["a", "b", "c"]⟩
    rfl rfl (by decide) (by decide) (by decide)
  ⟨h.1, h.2.1, h.2.2.1⟩

/-- C4, at the failing input: the only line of a one-line buffer is requested
(`copyUpToLine = 0 = lineCount - 1`), and the chunk is the decoder output for
lines `[0, 0]` followed by a line separator. -/
theorem C4_last_chunk_gets_separator :
    ((oneJobTask (-1)).jobDataRequested (heapOf ["only"]) 7).events
        = [Event.writeToStream (some 1) DecoderPtr.plainText 0 0] ∧
      (bufferOf ["only"]).writeToStream DecoderPtr.plainText 0 0 = "only" ∧
      ((oneJobTask (-1)).jobDataRequested (heapOf ["only"]) 7).data = "only\n" ∧
      JobRegistry.value ((oneJobTask (-1)).jobDataRequested (heapOf ["only"]) 7).task._jobSession 7
        = some ⟨some 1, 0, DecoderPtr.plainText⟩ := by
  decide

/-- C10, the claim refuted at a concrete input: the job 7 refers to the session
at address 1, which no longer exists; the call reports nothing (no event at all,
so no error message) and leaves the chunk empty, exactly as the call on an
exhausted job of a live session does. -/
theorem C10_dead_session_reports_no_error :
    JobRegistry.value (oneJobTask (-1))._jobSession 7 = some ⟨some 1, -1, DecoderPtr.plainText⟩ ∧
      deref emptyHeap (some 1) = none ∧
      ¬ (∃ m, Event.messageBox m ∈ ((oneJobTask (-1)).jobDataRequested emptyHeap 7).events) ∧
      ((oneJobTask (-1)).jobDataRequested emptyHeap 7).data = "" ∧
      ((oneJobTask (-1)).jobDataRequested emptyHeap 7).data
        = ((oneJobTask 2).jobDataRequested (heapOf ["a", "b", "c"]) 7).data ∧
      ((oneJobTask (-1)).jobDataRequested emptyHeap 7).events
        = ((oneJobTask 2).jobDataRequested (heapOf ["a", "b", "c"]) 7).events := by
  have h : (oneJobTask (-1)).jobDataRequested emptyHeap 7 = ⟨oneJobTask (-1), "", []⟩ :=
    fetch_dead _ _ _ ⟨some 1, -1, DecoderPtr.plainText⟩ rfl rfl
  have h2 : (oneJobTask 2).jobDataRequested (heapOf ["a", "b", "c"]) 7
      = ⟨oneJobTask 2, "", []⟩ :=
    fetch_exhausted _ _ _ ⟨some 1, 2, DecoderPtr.plainText⟩ ⟨"shell", bufferOf ["a", "b", "c"]⟩
      rfl rfl (by decide) (by decide) (by decide)
  rw [h, h2]
  refine ⟨rfl, rfl, ?_, rfl, rfl, rfl⟩
  rintro ⟨m, hm⟩
  simp at hm

/-- C10 as amended: for a registered job whose session reference has become
invalid, `jobDataRequested` makes no call at all (the session's buffer is not
read, the decoder is not invoked, no error is reported), leaves the task and so
the job's `lastLineFetched` unchanged, and leaves the chunk empty. -/
theorem C10_dead_session_empty_chunk (t : SaveHistoryTask) (heap : Heap) (job : KJobPtr)
    (info : SaveJob)
    (hreg : JobRegistry.value t._jobSession job = some info)
    (hdead : deref heap info.session = none) :
    (t.jobDataRequested heap job).events = [] ∧
      (t.jobDataRequested heap job).data = "" ∧
      (t.jobDataRequested heap job).task = t ∧
      JobRegistry.value (t.jobDataRequested heap job).task._jobSession job = some info := by
  rw [fetch_dead t heap job info hreg hdead]
  exact ⟨rfl, rfl, rfl, hreg⟩

/-- C10 as amended, at a job whose session has been destroyed. -/
theorem C10_witness :
    ((oneJobTask 0).jobDataRequested emptyHeap 7).events = [] ∧
      ((oneJobTask 0).jobDataRequested emptyHeap 7).data = "" ∧
      ((oneJobTask 0).jobDataRequested emptyHeap 7).task = oneJobTask 0 :=
  have h := C10_dead_session_empty_chunk (oneJobTask 0) emptyHeap 7
    ⟨some 1, 0, DecoderPtr.plainText⟩ rfl rfl
  ⟨h.1, h.2.1, h.2.2.1⟩

/-! ## Calls on a growing buffer -/

/-- One call for a job with cursor `c` on a live buffer of `n ≥ c + 1` lines. -/
theorem fetch_step (t : SaveHistoryTask) (heap : Heap) (job : KJobPtr) (ptr : SessionPtr)
    (dec : DecoderPtr) (c n : Int)
    (hreg : JobRegistry.value t._jobSession job = some ⟨ptr, c, dec⟩)
    (hn : lineCount heap ptr = some n)
    (hc : -1 ≤ c) (hcn : c + 1 ≤ n) (hhi : n ≤ 2147483148) :
    ∃ c2, JobRegistry.value (t.jobDataRequested heap job).task._jobSession job
          = some ⟨ptr, c2, dec⟩ ∧
      c ≤ c2 ∧ c2 ≤ n - 1 ∧
      ((t.jobDataRequested heap job).data ≠ "" →
        c < c2 ∧ (t.jobDataRequested heap job).events = [Event.writeToStream ptr dec (c + 1) c2]) ∧
      ((t.jobDataRequested heap job).data = "" →
        c2 = c ∧ (t.jobDataRequested heap job).events = []) ∧
      linesOfRanges (decodedRanges (t.jobDataRequested heap job).events)
        = linesFrom (c + 1) (c2 - c).toNat := by
  unfold lineCount at hn
  cases hlive : deref heap ptr with
  | none => simp [hlive] at hn
  | some s =>
    have hs : s.emulation.lines = n := by simpa [hlive] using hn
    subst hs
    by_cases hex : c = s.emulation.lines - 1
    · rw [fetch_exhausted t heap job ⟨ptr, c, dec⟩ s hreg hlive (by omega) (by omega) hex]
      refine ⟨c, hreg, le_refl _, by omega, ?_, ?_, ?_⟩
      · intro h
        exact absurd rfl h
      · intro _
        exact ⟨rfl, rfl⟩
      · simp [decodedRanges, linesOfRanges, linesFrom]
    · have hlt : c < s.emulation.lines - 1 := by omega
      rw [fetch_more t heap job ⟨ptr, c, dec⟩ s hreg hlive hhi hc hlt]
      refine ⟨min (c + 500) (s.emulation.lines - 1), value_assign_self _ _ _ _ hreg,
        by omega, by omega, ?_, ?_, ?_⟩
      · intro _
        exact ⟨by omega, rfl⟩
      · intro h
        exact absurd h (append_newline_ne_empty _)
      · simp only [decodedRanges, linesOfRanges, rangeLines, List.append_nil]
        congr 1
        omega

/-- The invariant of a sequence of calls that see the line counts `ns`, from the
cursor `c` with `c + 1 ≤ n_1 ≤ n_2 ≤ ..`: what the calls before a given one
leave behind, and what that call does. -/
theorem pullEach_step (job : KJobPtr) (ptr : SessionPtr) (dec : DecoderPtr) :
    ∀ (pre : List Heap) (t : SaveHistoryTask) (c : Int) (ns : List Int) (heap : Heap)
      (post : List Heap),
      JobRegistry.value t._jobSession job = some ⟨ptr, c, dec⟩ → -1 ≤ c →
      (pre ++ heap :: post).map (fun h => lineCount h ptr) = ns.map some →
      List.Chain (fun a b : Int => a ≤ b) (c + 1) ns →
      (∀ n ∈ ns, n ≤ 2147483148) →
      ∃ c1 c2 n, lineCount heap ptr = some n ∧
        JobRegistry.value (taskAfter (pullEach job pre t) t)._jobSession job
          = some ⟨ptr, c1, dec⟩ ∧
        JobRegistry.value
            ((taskAfter (pullEach job pre t) t).jobDataRequested heap job).task._jobSession job
          = some ⟨ptr, c2, dec⟩ ∧
        c ≤ c1 ∧ c1 ≤ c2 ∧ c2 ≤ n - 1 ∧
        (((taskAfter (pullEach job pre t) t).jobDataRequested heap job).data ≠ "" →
          c1 < c2 ∧ ((taskAfter (pullEach job pre t) t).jobDataRequested heap job).events
            = [Event.writeToStream ptr dec (c1 + 1) c2]) ∧
        (((taskAfter (pullEach job pre t) t).jobDataRequested heap job).data = "" →
          c2 = c1 ∧ ((taskAfter (pullEach job pre t) t).jobDataRequested heap job).events = []) ∧
        linesOfRanges (decodedRanges (eventsOf (pullEach job pre t)))
          = linesFrom (c + 1) (c1 - c).toNat ∧
        linesOfRanges (decodedRanges
            ((taskAfter (pullEach job pre t) t).jobDataRequested heap job).events)
          = linesFrom (c1 + 1) (c2 - c1).toNat := by
  intro pre
  induction pre with
  | nil =>
    intro t c ns heap post hreg hc hns hchain hbound
    cases ns with
    | nil => simp at hns
    | cons n ns =>
      simp only [List.nil_append, List.map_cons, List.cons.injEq] at hns
      have hcn : c + 1 ≤ n := (List.chain_cons.mp hchain).1
      obtain ⟨c2, hreg2, h1, h2, h3, h4, h5⟩ :=
        fetch_step t heap job ptr dec c n hreg hns.1 hc hcn (hbound n (List.mem_cons_self _ _))
      refine ⟨c, c2, n, hns.1, hreg, hreg2, le_refl _, h1, h2, h3, h4, ?_, h5⟩
      simp [pullEach, eventsOf, decodedRanges, linesOfRanges, linesFrom]
  | cons h pre ih =>
    intro t c ns heap post hreg hc hns hchain hbound
    cases ns with
    | nil => simp at hns
    | cons n ns =>
      simp only [List.cons_append, List.map_cons, List.cons.injEq] at hns
      have hcn : c + 1 ≤ n := (List.chain_cons.mp hchain).1
      obtain ⟨c0, hreg0, h1, h2, -, -, hl0⟩ :=
        fetch_step t h job ptr dec c n hreg hns.1 hc hcn (hbound n (List.mem_cons_self _ _))
      have hchain0 : List.Chain (fun a b : Int => a ≤ b) (c0 + 1) ns := by
        have htail := (List.chain_cons.mp hchain).2
        cases ns with
        | nil => exact List.Chain.nil
        | cons m ms =>
          have hm := List.chain_cons.mp htail
          exact List.chain_cons.mpr ⟨by omega, hm.2⟩
      obtain ⟨c1, c2, m, hm, hreg1, hreg2, g1, g2, g3, g4, g5, hl1, hl2⟩ :=
        ih (t.jobDataRequested h job).task c0 ns heap post hreg0 (by omega) hns.2 hchain0
          (fun x hx => hbound x (List.mem_cons_of_mem _ hx))
      refine ⟨c1, c2, m, hm, hreg1, hreg2, by omega, g2, g3, g4, g5, ?_, hl2⟩
      have hev : eventsOf (pullEach job (h :: pre) t)
          = (t.jobDataRequested h job).events
            ++ eventsOf (pullEach job pre (t.jobDataRequested h job).task) := rfl
      have hlin : ∀ xs ys : List (Int × Int),
          linesOfRanges (xs ++ ys) = linesOfRanges xs ++ linesOfRanges ys := by
        intro xs ys
        induction xs with
        | nil => rfl
        | cons x rest ihx => simp [linesOfRanges, ihx]
      rw [hev, decodedRanges_append, hlin, hl0, hl1]
      have hsplit : (c1 - c).toNat = (c0 - c).toNat + (c1 - c0).toNat := by omega
      have hnext : c0 + 1 = c + 1 + (((c0 - c).toNat : Nat) : Int) := by omega
      rw [hsplit, linesFrom_append, ← hnext]

/-- C5: a job that starts at `lastLineFetched = -1` is asked for data again and
again while its session's buffer shows the line counts `0 ≤ n_1 ≤ n_2 ≤ ..`.
At every call, after whatever calls came before: the cursor `c1` from before
the call and `c2` after it satisfy `-1 ≤ c1 ≤ c2 ≤ n_i - 1`; a non-empty chunk
means `c1 < c2` and one decoder call over exactly `[c1 + 1, c2]`; an empty chunk
means no call and `c2 = c1`; the lines decoded by the earlier calls are
`0, .., c1`, each once and in order, and those decoded by this call are
`c1 + 1, .., c2`. (Every `n_i + 499` fits an `int`.) -/
theorem C5_cursor_monotone_no_gap (t : SaveHistoryTask) (job : KJobPtr) (ptr : SessionPtr)
    (dec : DecoderPtr) (ns : List Int) (pre : List Heap) (heap : Heap) (post : List Heap)
    (hreg : JobRegistry.value t._jobSession job = some ⟨ptr, -1, dec⟩)
    (hns : (pre ++ heap :: post).map (fun h => lineCount h ptr) = ns.map some)
    (hmono : List.Chain (fun a b : Int => a ≤ b) 0 ns)
    (hbound : ∀ n ∈ ns, n ≤ 2147483148) :
    ∃ c1 c2 n, lineCount heap ptr = some n ∧
      JobRegistry.value (taskAfter (pullEach job pre t) t)._jobSession job
        = some ⟨ptr, c1, dec⟩ ∧
      JobRegistry.value
          ((taskAfter (pullEach job pre t) t).jobDataRequested heap job).task._jobSession job
        = some ⟨ptr, c2, dec⟩ ∧
      -1 ≤ c1 ∧ c1 ≤ c2 ∧ c2 ≤ n - 1 ∧
      (((taskAfter (pullEach job pre t) t).jobDataRequested heap job).data ≠ "" →
        c1 < c2 ∧ ((taskAfter (pullEach job pre t) t).jobDataRequested heap job).events
          = [Event.writeToStream ptr dec (c1 + 1) c2]) ∧
      (((taskAfter (pullEach job pre t) t).jobDataRequested heap job).data = "" →
        c2 = c1 ∧ ((taskAfter (pullEach job pre t) t).jobDataRequested heap job).events = []) ∧
      linesOfRanges (decodedRanges (eventsOf (pullEach job pre t)))
        = linesFrom 0 (c1 + 1).toNat ∧
      linesOfRanges (decodedRanges
          ((taskAfter (pullEach job pre t) t).jobDataRequested heap job).events)
        = linesFrom (c1 + 1) (c2 - c1).toNat := by
  have hchain : List.Chain (fun a b : Int => a ≤ b) (-1 + 1) ns := by
    simpa using hmono
  obtain ⟨c1, c2, n, h1, h2, h3, h4, h5, h6, h7, h8, h9, h10⟩ :=
    pullEach_step job ptr dec pre t (-1) ns heap post hreg (le_refl _) hns hchain hbound
  refine ⟨c1, c2, n, h1, h2, h3, h4, h5, h6, h7, h8, ?_, h10⟩
  rw [h9]
  have e1 : (-1 : Int) + 1 = 0 := by norm_num
  have e2 : (c1 - -1).toNat = (c1 + 1).toNat := by
    congr 1
  rw [e1, e2]

/-- C5 at a buffer that grows from one line to three between two calls. -/
theorem C5_witness :
    ∃ c1 c2 n : Int, lineCount (heapOf ["a", "b", "c"]) (some 1) = some n ∧
      -1 ≤ c1 ∧ c1 ≤ c2 ∧ c2 ≤ n - 1 := by
  obtain ⟨c1, c2, n, h1, -, -, h4, h5, h6, -⟩ :=
    C5_cursor_monotone_no_gap (oneJobTask (-1)) 7 (some 1) DecoderPtr.plainText [1, 3]
      [heapOf ["a"]] (heapOf ["a", "b", "c"]) [] rfl rfl
      (List.Chain.cons (by decide) (List.Chain.cons (by decide) List.Chain.nil)) (by decide)
  exact ⟨c1, c2, n, h1, h4, h5, h6⟩

/-! ## The terminal result of a job -/

/-- C9: for a registered job `j`, `jobResult(j)` removes the entry of `j`, leaves
the entry of every other job as it was (session, `lastLineFetched`, decoder), and
shows an error message exactly when `j` reports an error, namely the one with the
job's error string. -/
theorem C9_jobResult_removes_only_its_job (t : SaveHistoryTask) (job : KJobPtr)
    (info : SaveJob) (error : Int) (errorString : String)
    (hreg : JobRegistry.value t._jobSession job = some info) :
    JobRegistry.value (t.jobResult job error errorString).1._jobSession job = none ∧
      (∀ h, h ≠ job →
        JobRegistry.value (t.jobResult job error errorString).1._jobSession h
          = JobRegistry.value t._jobSession h) ∧
      ((∃ m, Event.messageBox m ∈ (t.jobResult job error errorString).2) ↔ error ≠ 0) ∧
      messages (t.jobResult job error errorString).2
        = (if error ≠ 0 then ["A problem occurred when saving the output.\n" ++ errorString]
           else []) ∧
      (t.jobResult job error errorString).1.toSessionTask = t.toSessionTask := by
  have hidx := index_of_value _ _ _ hreg
  refine ⟨?_, ?_, ?_, ?_, ?_⟩
  · simp only [SaveHistoryTask.jobResult, hidx]
    exact value_remove_self _ _
  · intro h hne
    simp only [SaveHistoryTask.jobResult, hidx]
    exact value_remove_ne _ _ _ hne
  · by_cases he : error = 0 <;> cases hauto : t.autoDelete <;>
      simp [SaveHistoryTask.jobResult, hidx, he, hauto]
  · by_cases he : error = 0 <;> cases hauto : t.autoDelete <;>
      simp [SaveHistoryTask.jobResult, hidx, he, hauto, messages]
  · simp only [SaveHistoryTask.jobResult, hidx]

/-- C9 at a task with the jobs 7 and 8, of which 7 fails. -/
theorem C9_witness :
    JobRegistry.value (twoJobTask.jobResult 7 3 "disk full").1._jobSession 7 = none ∧
      JobRegistry.value (twoJobTask.jobResult 7 3 "disk full").1._jobSession 8
        = some ⟨some 2, -1, DecoderPtr.plainText⟩ :=
  have h := C9_jobResult_removes_only_its_job twoJobTask 7 ⟨some 1, -1, DecoderPtr.plainText⟩
    3 "disk full" rfl
  ⟨h.1, h.2.1 8 (by decide)⟩

/-- C6, at the failing input: `execute` creates the jobs 7 and 8 and emits
nothing; the result of job 7 alone already emits `completed`, while job 8 is
still registered; over both results `completed` is emitted twice. -/
theorem C6_completed_emitted_per_job :
    (twoSessionTask.execute twoSessionHeap acceptAll).map Prod.fst = some twoJobTask ∧
      (twoSessionTask.execute twoSessionHeap acceptAll).map (fun r => completedCount r.2)
        = some 0 ∧
      completedCount (twoJobTask.jobResult 7 0 "").2 = 1 ∧
      JobRegistry.value (twoJobTask.jobResult 7 0 "").1._jobSession 8
        = some ⟨some 2, -1, DecoderPtr.plainText⟩ ∧
      completedCount (deliverResults [(7, 0, ""), (8, 0, "")] twoJobTask).2 = 2 ∧
      (deliverResults [(7, 0, ""), (8, 0, "")] twoJobTask).1._jobSession = [] := by
  decide

/-- C7, at the failing inputs: `execute` on a task without sessions, and on a
task whose two prompts are both cancelled, creates no job and returns without
having emitted `completed`. -/
theorem C7_no_job_no_completed :
    SaveHistoryTask.new.execute emptyHeap declineAll
        = some (SaveHistoryTask.new, [Event.dialogDeleteLater]) ∧
      twoSessionTask.execute twoSessionHeap declineAll
        = some (twoSessionTask,
            [Event.dialogExec "Save Output from first",
             Event.dialogExec "Save Output from second",
             Event.dialogDeleteLater]) ∧
      completedCount
          [Event.dialogExec "Save Output from first",
           Event.dialogExec "Save Output from second",
           Event.dialogDeleteLater] = 0 := by
  decide

/-! ## Creating the jobs -/

/-- One pass of the loop for a live session: one prompt, and a job exactly when
the answer is an accepted valid URL. -/
theorem executeSession_live (heap : Heap) (ans : DialogAnswer) (p : SessionPtr)
    (reg : JobRegistry) (s : Session) (hlive : deref heap p = some s) :
    ∃ ev, SaveHistoryTask.executeSession heap ans p reg
        = some ((if ans.creates = true then
            JobRegistry.insert reg ans.job ⟨p, -1, chosenDecoder ans.currentMimeFilter⟩
          else reg), ev) ∧
      promptCaptions ev = ["Save Output from " ++ s.title] := by
  unfold SaveHistoryTask.executeSession
  rw [hlive]
  by_cases hacc : ans.result = Accepted
  · cases hvalid : ans.selectedUrl.isValid
    · exact ⟨[Event.dialogExec ("Save Output from " ++ s.title),
          Event.messageBox "%1 is an invalid URL, the output could not be saved."],
        by simp [DialogAnswer.creates, hacc, hvalid], rfl⟩
    · exact ⟨[Event.dialogExec ("Save Output from " ++ s.title),
          Event.put ans.selectedUrl (-1) true false (!ans.selectedUrl.isLocalFile),
          Event.connectJob ans.job],
        by simp [DialogAnswer.creates, hacc, hvalid, chosenDecoder], rfl⟩
  · exact ⟨[Event.dialogExec ("Save Output from " ++ s.title)],
      by simp [DialogAnswer.creates, hacc], rfl⟩

theorem promptCaptions_append (xs ys : List Event) :
    promptCaptions (xs ++ ys) = promptCaptions xs ++ promptCaptions ys := by
  induction xs with
  | nil => rfl
  | cons e rest ih => cases e <;> simp [promptCaptions, ih]

/-- The loop of `execute` over live sessions, the prompts being numbered from
`i`, when the jobs created are distinct. -/
theorem executeLoop_live (heap : Heap) (dialog : Nat → DialogAnswer) :
    ∀ (sessions : List SessionPtr) (i : Nat) (reg : JobRegistry),
      (∀ p ∈ sessions, ∃ s, deref heap p = some s) →
      (∀ a b, a < sessions.length → b < sessions.length →
        (dialog (i + a)).creates = true → (dialog (i + b)).creates = true →
        (dialog (i + a)).job = (dialog (i + b)).job → a = b) →
      ∃ reg1 ev, SaveHistoryTask.executeLoop heap dialog i sessions reg = some (reg1, ev) ∧
        (promptCaptions ev).map some
          = sessions.map (fun p => (deref heap p).map (fun s => "Save Output from " ++ s.title)) ∧
        (∀ k p, sessions[k]? = some p → (dialog (i + k)).creates = true →
          JobRegistry.value reg1 (dialog (i + k)).job
            = some ⟨p, -1, chosenDecoder (dialog (i + k)).currentMimeFilter⟩) ∧
        (∀ h, (∀ k, k < sessions.length → (dialog (i + k)).creates = true →
            (dialog (i + k)).job ≠ h) →
          JobRegistry.value reg1 h = JobRegistry.value reg h) := by
  intro sessions
  induction sessions with
  | nil =>
    intro i reg _ _
    exact ⟨reg, [], rfl, rfl, by simp, fun _ _ => rfl⟩
  | cons p rest ih =>
    intro i reg hlive hdist
    obtain ⟨s, hs⟩ := hlive p (List.mem_cons_self _ _)
    obtain ⟨ev0, hstep, hcap0⟩ := executeSession_live heap (dialog i) p reg s hs
    have hdist1 : ∀ a b, a < rest.length → b < rest.length →
        (dialog (i + 1 + a)).creates = true → (dialog (i + 1 + b)).creates = true →
        (dialog (i + 1 + a)).job = (dialog (i + 1 + b)).job → a = b := by
      intro a b ha hb ca cb hab
      have e1 : i + 1 + a = i + (a + 1) := by omega
      have e2 : i + 1 + b = i + (b + 1) := by omega
      rw [e1] at ca hab
      rw [e2] at cb hab
      have := hdist (a + 1) (b + 1) (by simp; omega) (by simp; omega) ca cb hab
      omega
    obtain ⟨reg1, ev1, hloop, hcap1, hjobs, hothers⟩ :=
      ih (i + 1)
        (if (dialog i).creates = true then
          JobRegistry.insert reg (dialog i).job
            ⟨p, -1, chosenDecoder (dialog i).currentMimeFilter⟩
        else reg)
        (fun q hq => hlive q (List.mem_cons_of_mem _ hq)) hdist1
    refine ⟨reg1, ev0 ++ ev1, ?_, ?_, ?_, ?_⟩
    · simp only [SaveHistoryTask.executeLoop, hstep, hloop]
    · rw [promptCaptions_append, List.map_append, hcap0, hcap1]
      simp [hs]
    · intro k q hk hc
      cases k with
      | zero =>
        simp only [List.getElem?_cons_zero, Option.some.injEq] at hk
        subst hk
        have hc0 : (dialog i).creates = true := hc
        have hkeep := hothers (dialog i).job (by
          intro k hklt hck heq
          have e1 : i + 1 + k = i + (k + 1) := by omega
          rw [e1] at hck heq
          have := hdist (k + 1) 0 (by simp; omega) (by simp) hck hc0 heq
          omega)
        show JobRegistry.value reg1 (dialog i).job = _
        rw [hkeep, if_pos hc0]
        exact value_insert_self _ _ _
      | succ k =>
        simp only [List.getElem?_cons_succ] at hk
        have e1 : i + (k + 1) = i + 1 + k := by omega
        rw [e1] at hc ⊢
        exact hjobs k q hk hc
    · intro h hh
      have hrest := hothers h (by
        intro k hklt hck
        have e1 : i + 1 + k = i + (k + 1) := by omega
        rw [e1] at hck ⊢
        exact hh (k + 1) (by simp; omega) hck)
      rw [hrest]
      by_cases hc0 : (dialog i).creates = true
      · rw [if_pos hc0]
        have hne : h ≠ (dialog i).job := fun e => hh 0 (by simp) hc0 e.symm
        exact value_insert_ne _ _ _ _ hne
      · rw [if_neg hc0]

/-- C8: over live sessions, and when the transfer jobs opened are distinct,
`execute` returns having prompted once per session, in insertion order (the
captions are those of the sessions' titles, in order); the `k`-th session has a
job, under the handle opened for it, exactly when its prompt was accepted with a
valid URL: that job refers to the session, has `lastLineFetched = -1` and the
HTML decoder when the mime filter is `text/html`, the plain-text one otherwise;
every other handle has the entry it had before, so no other job was registered;
the session list and the auto-delete flag are unchanged. -/
theorem C8_execute_registers_accepted_sessions (t : SaveHistoryTask) (heap : Heap)
    (dialog : Nat → DialogAnswer)
    (hlive : ∀ p ∈ t.sessions, ∃ s, deref heap p = some s)
    (hdist : ∀ a b, a < t.sessions.length → b < t.sessions.length →
      (dialog a).creates = true → (dialog b).creates = true →
      (dialog a).job = (dialog b).job → a = b) :
    ∃ t1 ev, t.execute heap dialog = some (t1, ev) ∧
      (promptCaptions ev).map some
        = t.sessions.map (fun p => (deref heap p).map (fun s => "Save Output from " ++ s.title)) ∧
      (∀ k p, t.sessions[k]? = some p → (dialog k).creates = true →
        JobRegistry.value t1._jobSession (dialog k).job
          = some ⟨p, -1, if (dialog k).currentMimeFilter = "text/html" then DecoderPtr.html
                         else DecoderPtr.plainText⟩) ∧
      (∀ h, (∀ k, k < t.sessions.length → (dialog k).creates = true → (dialog k).job ≠ h) →
        JobRegistry.value t1._jobSession h = JobRegistry.value t._jobSession h) ∧
      t1.toSessionTask = t.toSessionTask := by
  obtain ⟨reg1, ev, hloop, hcap, hjobs, hothers⟩ :=
    executeLoop_live heap dialog t.sessions 0 t._jobSession hlive (by
      intro a b ha hb ca cb hab
      simp only [Nat.zero_add] at ca cb hab
      exact hdist a b ha hb ca cb hab)
  refine ⟨⟨t.toSessionTask, reg1⟩, ev ++ [Event.dialogDeleteLater], ?_, ?_, ?_, ?_, rfl⟩
  · simp only [SaveHistoryTask.execute, hloop]
  · rw [promptCaptions_append, List.map_append, hcap]
    simp [promptCaptions]
  · intro k p hk hc
    have := hjobs k p hk (by simpa using hc)
    simpa [chosenDecoder] using this
  · intro h hh
    exact hothers h (by
      intro k hk hc
      simp only [Nat.zero_add] at hc ⊢
      exact hh k hk hc)

/-- C8 at two sessions of which the first prompt is cancelled and the second is
accepted as HTML: only the second session has a job. -/
theorem C8_witness :
    ∃ t1 ev, twoSessionTask.execute twoSessionHeap declineFirst = some (t1, ev) ∧
      JobRegistry.value t1._jobSession 8 = some ⟨some 2, -1, DecoderPtr.html⟩ ∧
      JobRegistry.value t1._jobSession 7 = none := by
  obtain ⟨t1, ev, hrun, -, hjobs, hothers, -⟩ :=
    C8_execute_registers_accepted_sessions twoSessionTask twoSessionHeap declineFirst
      (by
        intro p hp
        have hp2 : p = some 1 ∨ p = some 2 := by
          simpa [twoSessionTask, SessionTask.sessions, SessionTask.addSession,
            SessionTask.new] using hp
        rcases hp2 with h | h
        · exact ⟨_, by rw [h]; rfl⟩
        · exact ⟨_, by rw [h]; rfl⟩)
      (by
        intro a b ha hb ca cb _
        have ha2 : a < 2 := ha
        have hb2 : b < 2 := hb
        have ha1 : a = 1 := by
          by_contra hne
          have h0 : a = 0 := by omega
          rw [h0] at ca
          exact absurd ca (by decide)
        have hb1 : b = 1 := by
          by_contra hne
          have h0 : b = 0 := by omega
          rw [h0] at cb
          exact absurd cb (by decide)
        omega)
  refine ⟨t1, ev, hrun, ?_, ?_⟩
  · exact hjobs 1 (some 2) rfl rfl
  · rw [hothers 7 (by decide)]
    rfl

/-! ## The session list of a task -/

theorem addSession_foldl (ss : List SessionPtr) (t : SessionTask) :
    (ss.foldl SessionTask.addSession t).sessions = t.sessions ++ ss ∧
      (ss.foldl SessionTask.addSession t).autoDelete = t.autoDelete := by
  induction ss generalizing t with
  | nil => simp [SessionTask.sessions]
  | cons a rest ih =>
    obtain ⟨h1, h2⟩ := ih (t.addSession a)
    rw [List.foldl_cons, h1, h2]
    simp [SessionTask.addSession, SessionTask.sessions, SessionTask.autoDelete]

/-- C17: after `addSession(s_1)`, .., `addSession(s_k)` on a freshly constructed
task, `sessions()` is exactly `[s_1, .., s_k]` (same length, same order,
duplicates kept) and `autoDelete()` is still false; `addSession` never changes
the flag. -/
theorem C17_sessions_in_insertion_order (ss : List SessionPtr) :
    (ss.foldl SessionTask.addSession SessionTask.new).sessions = ss ∧
      (ss.foldl SessionTask.addSession SessionTask.new).sessions.length = ss.length ∧
      (ss.foldl SessionTask.addSession SessionTask.new).autoDelete = false ∧
      (∀ (t : SessionTask) (s : SessionPtr), (t.addSession s).autoDelete = t.autoDelete) := by
  obtain ⟨h1, h2⟩ := addSession_foldl ss SessionTask.new
  have h3 : (ss.foldl SessionTask.addSession SessionTask.new).sessions = ss := by
    rw [h1]
    simp [SessionTask.new, SessionTask.sessions]
  refine ⟨h3, by rw [h3], ?_, fun _ _ => rfl⟩
  rw [h2]
  rfl

/-! ## Searching -/

/-- C16: with exactly one live session and an empty pattern, `execute()` returns
normally and does nothing: no event at all (so no `findTextBegin`, no
`findTextNext`, no `foundMatch`, no message), and the task is as before, with its
pattern, direction, `matchCase`, `matchRegExp` and session list. -/
theorem C16_empty_pattern_does_nothing (t : SearchHistoryTask) (heap : Heap) (p : SessionPtr)
    (s : Session)
    (hs : t.sessions = [p])
    (hlive : deref heap p = some s)
    (hempty : t.regExp = "") :
    ∃ t1 ev, t.execute heap = some (t1, ev) ∧ ev = [] ∧ matchResults ev = [] ∧
      t1 = t ∧ t1.regExp = t.regExp ∧ t1.searchDirection = t.searchDirection ∧
      t1.matchCase = t.matchCase ∧ t1.matchRegExp = t.matchRegExp ∧
      t1.sessions = t.sessions := by
  refine ⟨t, [], ?_, rfl, rfl, rfl, rfl, rfl, rfl, rfl, rfl⟩
  have hp : t._regExp = "" := hempty
  simp [SearchHistoryTask.execute, hs, hlive, hp]

/-- C16 at a fresh search task with the live session at address 1. -/
theorem C16_witness :
    ∃ t1 ev, (searchTask "").execute (heapOf ["a"]) = some (t1, ev) ∧ ev = [] ∧
      t1 = searchTask "" := by
  obtain ⟨t1, ev, h1, h2, -, h3, -⟩ :=
    C16_empty_pattern_does_nothing (searchTask "") (heapOf ["a"]) (some 1)
      ⟨"shell", bufferOf ["a"]⟩ rfl rfl rfl
  exact ⟨t1, ev, h1, h2, h3⟩

/-! ## The frame of the callbacks -/

/-- A call for a registered job leaves the task as it was or assigns a new
cursor to that job's entry; every call it makes is a decoder call on that job's
session. -/
theorem fetch_registered_shape (t : SaveHistoryTask) (heap : Heap) (job : KJobPtr)
    (info : SaveJob) (hreg : JobRegistry.value t._jobSession job = some info) :
    ∃ c, ((t.jobDataRequested heap job).task = t ∨
        (t.jobDataRequested heap job).task
          = ⟨t.toSessionTask, JobRegistry.assign t._jobSession job
              ⟨info.session, c, info.decoder⟩⟩) ∧
      ∀ e ∈ (t.jobDataRequested heap job).events,
        ∃ a b, e = Event.writeToStream info.session info.decoder a b := by
  cases hlive : deref heap info.session with
  | none =>
    rw [fetch_dead t heap job info hreg hlive]
    exact ⟨0, Or.inl rfl, by simp⟩
  | some s =>
    by_cases hex : int32 (s.emulation.lines - 1) = info.lastLineFetched
    · refine ⟨0, Or.inl ?_, ?_⟩
      · simp [SaveHistoryTask.jobDataRequested, index_of_value _ _ _ hreg, hlive, hex]
      · simp [SaveHistoryTask.jobDataRequested, index_of_value _ _ _ hreg, hlive, hex]
    · refine ⟨min (int32 (info.lastLineFetched + LINES_PER_REQUEST))
        (int32 (s.emulation.lines - 1)), Or.inr ?_, ?_⟩
      · simp [SaveHistoryTask.jobDataRequested, index_of_value _ _ _ hreg, hlive, hex]
      · simp [SaveHistoryTask.jobDataRequested, index_of_value _ _ _ hreg, hlive, hex]

/-- What a call for a registered job writes, calls and stores for the job is
determined by the job's entry and the state of the job's session alone. -/
theorem fetch_reads_only_its_job (t t2 : SaveHistoryTask) (heap heap2 : Heap) (job : KJobPtr)
    (info : SaveJob)
    (hreg : JobRegistry.value t._jobSession job = some info)
    (hreg2 : JobRegistry.value t2._jobSession job = some info)
    (hsame : deref heap2 info.session = deref heap info.session) :
    (t2.jobDataRequested heap2 job).data = (t.jobDataRequested heap job).data ∧
      (t2.jobDataRequested heap2 job).events = (t.jobDataRequested heap job).events ∧
      JobRegistry.value (t2.jobDataRequested heap2 job).task._jobSession job
        = JobRegistry.value (t.jobDataRequested heap job).task._jobSession job := by
  cases hlive : deref heap info.session with
  | none =>
    rw [fetch_dead t heap job info hreg hlive,
      fetch_dead t2 heap2 job info hreg2 (hsame.trans hlive)]
    exact ⟨rfl, rfl, hreg2.trans hreg.symm⟩
  | some s =>
    have hlive2 := hsame.trans hlive
    by_cases hex : int32 (s.emulation.lines - 1) = info.lastLineFetched
    · simp [SaveHistoryTask.jobDataRequested, index_of_value _ _ _ hreg,
        index_of_value _ _ _ hreg2, hlive, hlive2, hex, hreg, hreg2]
    · simp only [SaveHistoryTask.jobDataRequested, index_of_value _ _ _ hreg,
        index_of_value _ _ _ hreg2, hlive, hlive2, hex, if_false]
      refine ⟨trivial, trivial, ?_⟩
      rw [value_assign_self _ _ _ _ hreg, value_assign_self _ _ _ _ hreg2]

/-- C18: a call `jobDataRequested(j)` for a registered handle `j` is resolved to
the job of `j`: afterwards `j` has an entry with the same session and decoder
(only `lastLineFetched` may differ), every other handle has the entry it had,
the same handles are registered, the session list and the flag are unchanged;
every call made is a decoder call on the session of `j`; and chunk, calls and
new entry depend on nothing but the entry of `j` and the state of its session:
they are the same from any other task and heap that agree on these two. -/
theorem C18_pull_is_confined_to_its_job (t : SaveHistoryTask) (heap : Heap) (job : KJobPtr)
    (info : SaveJob) (hreg : JobRegistry.value t._jobSession job = some info) :
    (∃ c, JobRegistry.value (t.jobDataRequested heap job).task._jobSession job
        = some ⟨info.session, c, info.decoder⟩) ∧
      (∀ h, h ≠ job → JobRegistry.value (t.jobDataRequested heap job).task._jobSession h
        = JobRegistry.value t._jobSession h) ∧
      (∀ h, JobRegistry.contains (t.jobDataRequested heap job).task._jobSession h
        = JobRegistry.contains t._jobSession h) ∧
      (t.jobDataRequested heap job).task.toSessionTask = t.toSessionTask ∧
      (∀ e ∈ (t.jobDataRequested heap job).events,
        ∃ a b, e = Event.writeToStream info.session info.decoder a b) ∧
      (∀ (t2 : SaveHistoryTask) (heap2 : Heap),
        JobRegistry.value t2._jobSession job = some info →
        deref heap2 info.session = deref heap info.session →
        (t2.jobDataRequested heap2 job).data = (t.jobDataRequested heap job).data ∧
        (t2.jobDataRequested heap2 job).events = (t.jobDataRequested heap job).events ∧
        JobRegistry.value (t2.jobDataRequested heap2 job).task._jobSession job
          = JobRegistry.value (t.jobDataRequested heap job).task._jobSession job) := by
  obtain ⟨c, hshape, hev⟩ := fetch_registered_shape t heap job info hreg
  refine ⟨?_, ?_, ?_, ?_, hev, ?_⟩
  · rcases hshape with h | h
    · rw [h]
      exact ⟨info.lastLineFetched, hreg⟩
    · rw [h]
      exact ⟨c, value_assign_self _ _ _ _ hreg⟩
  · intro h hne
    rcases hshape with h1 | h1
    · rw [h1]
    · rw [h1]
      exact value_assign_ne _ _ _ _ hne
  · intro h
    rcases hshape with h1 | h1
    · rw [h1]
    · rw [h1]
      unfold JobRegistry.contains
      by_cases hj : h = job
      · subst hj
        rw [value_assign_self _ _ _ _ hreg, hreg]
        rfl
      · rw [value_assign_ne _ _ _ _ hj]
  · rcases hshape with h1 | h1 <;> rw [h1]
  · intro t2 heap2 hreg2 hsame
    exact fetch_reads_only_its_job t t2 heap heap2 job info hreg hreg2 hsame

/-- C18 at a task with the jobs 7 and 8: a call for 7 stores the cursor 0 for 7
and leaves the entry of 8 alone. -/
theorem C18_witness :
    JobRegistry.value (twoJobTask.jobDataRequested twoSessionHeap 7).task._jobSession 8
        = some ⟨some 2, -1, DecoderPtr.plainText⟩ ∧
      JobRegistry.value (twoJobTask.jobDataRequested twoSessionHeap 7).task._jobSession 7
        = some ⟨some 1, 0, DecoderPtr.plainText⟩ :=
  have h := C18_pull_is_confined_to_its_job twoJobTask twoSessionHeap 7
    ⟨some 1, -1, DecoderPtr.plainText⟩ rfl
  ⟨(h.2.1 8 (by decide)).trans rfl, by decide⟩

theorem remove_eq_self (r : JobRegistry) (job : KJobPtr)
    (hno : JobRegistry.value r job = none) : JobRegistry.remove r job = r := by
  induction r with
  | nil => rfl
  | cons e rest ih =>
    obtain ⟨k, v⟩ := e
    rw [value_cons] at hno
    by_cases hk : k = job
    · rw [if_pos hk] at hno
      exact absurd hno (by simp)
    · rw [if_neg hk] at hno
      rw [remove_cons, if_neg hk, ih hno]

theorem remove_insert_eq_self (r : JobRegistry) (job : KJobPtr) (v : SaveJob)
    (hno : JobRegistry.value r job = none) :
    JobRegistry.remove (JobRegistry.insert r job v) job = r := by
  rw [JobRegistry.insert, remove_cons, if_pos rfl, remove_eq_self r job hno,
    remove_eq_self r job hno]

/-- A call for a handle without an entry: `operator[]` creates the entry, whose
session is null, and nothing else happens. -/
theorem fetch_unregistered (t : SaveHistoryTask) (heap : Heap) (job : KJobPtr)
    (hno : JobRegistry.value t._jobSession job = none) :
    t.jobDataRequested heap job
      = ⟨⟨t.toSessionTask, JobRegistry.insert t._jobSession job SaveJob.default⟩, "", []⟩ := by
  simp [SaveHistoryTask.jobDataRequested, JobRegistry.index, hno, SaveJob.default, deref]

/-- The entries of the other handles after a call of `jobDataRequested`. -/
theorem fetch_others (t : SaveHistoryTask) (heap : Heap) (job h : KJobPtr) (hne : h ≠ job) :
    JobRegistry.value (t.jobDataRequested heap job).task._jobSession h
      = JobRegistry.value t._jobSession h := by
  cases hreg : JobRegistry.value t._jobSession job with
  | none =>
    rw [fetch_unregistered t heap job hreg]
    exact value_insert_ne _ _ _ _ hne
  | some info =>
    obtain ⟨c, hshape, -⟩ := fetch_registered_shape t heap job info hreg
    rcases hshape with h1 | h1
    · rw [h1]
    · rw [h1]
      exact value_assign_ne _ _ _ _ hne

/-- Whether the handle of the call has an entry after `jobDataRequested`: always. -/
theorem fetch_self_contained (t : SaveHistoryTask) (heap : Heap) (job : KJobPtr) :
    JobRegistry.contains (t.jobDataRequested heap job).task._jobSession job = true := by
  unfold JobRegistry.contains
  cases hreg : JobRegistry.value t._jobSession job with
  | none =>
    rw [fetch_unregistered t heap job hreg, value_insert_self]
    rfl
  | some info =>
    obtain ⟨c, hshape, -⟩ := fetch_registered_shape t heap job info hreg
    rcases hshape with h1 | h1
    · rw [h1, hreg]
      rfl
    · rw [h1, value_assign_self _ _ _ _ hreg]
      rfl

/-- The registry after `jobResult`: the one before without the job's entry. -/
theorem jobResult_registry (t : SaveHistoryTask) (job : KJobPtr) (error : Int)
    (errorString : String) (h : KJobPtr) :
    JobRegistry.value (t.jobResult job error errorString).1._jobSession h
      = if h = job then none else JobRegistry.value t._jobSession h := by
  by_cases hj : h = job
  · subst hj
    rw [if_pos rfl]
    simp only [SaveHistoryTask.jobResult]
    exact value_remove_self _ _
  · rw [if_neg hj]
    simp only [SaveHistoryTask.jobResult]
    rw [value_remove_ne _ _ _ hj]
    cases hreg : JobRegistry.value t._jobSession job with
    | none =>
      simp only [JobRegistry.index, hreg]
      exact value_insert_ne _ _ _ _ hj
    | some info => simp only [JobRegistry.index, hreg]

/-- C19, the claim refuted at a concrete input: the handle 9 has no entry in the
task whose only job is 7; after `jobDataRequested(9)` it has one, the
value-initialised entry that `operator[]` creates. -/
theorem C19_pull_for_unknown_handle_adds_entry :
    JobRegistry.contains (oneJobTask (-1))._jobSession 9 = false ∧
      JobRegistry.contains ((oneJobTask (-1)).jobDataRequested (heapOf ["a"]) 9).task._jobSession 9
        = true ∧
      JobRegistry.value ((oneJobTask (-1)).jobDataRequested (heapOf ["a"]) 9).task._jobSession 9
        = some SaveJob.default ∧
      ((oneJobTask (-1)).jobDataRequested (heapOf ["a"]) 9).task._jobSession
        ≠ (oneJobTask (-1))._jobSession := by
  decide

/-- C19 as amended: the callbacks never add an entry for another handle. After
`jobDataRequested(h)` the registered handles are those from before and `h`
itself (so the same ones when `h` was registered), and the entries of the other
handles are as before; after `jobResult(h)` the registered handles are those from
before without `h`, and a `jobResult` for a handle that has no entry leaves the
registry as it was. -/
theorem C19_callbacks_add_no_other_entry (t : SaveHistoryTask) (heap : Heap) (h : KJobPtr)
    (error : Int) (errorString : String) :
    (∀ k, JobRegistry.contains (t.jobDataRequested heap h).task._jobSession k
        = (JobRegistry.contains t._jobSession k || decide (k = h))) ∧
      (∀ k, k ≠ h → JobRegistry.value (t.jobDataRequested heap h).task._jobSession k
        = JobRegistry.value t._jobSession k) ∧
      (∀ k, JobRegistry.contains (t.jobResult h error errorString).1._jobSession k
        = (JobRegistry.contains t._jobSession k && decide (k ≠ h))) ∧
      (JobRegistry.contains t._jobSession h = false →
        (t.jobResult h error errorString).1._jobSession = t._jobSession) := by
  refine ⟨?_, ?_, ?_, ?_⟩
  · intro k
    by_cases hk : k = h
    · subst hk
      rw [fetch_self_contained]
      simp
    · unfold JobRegistry.contains
      rw [fetch_others t heap h k hk]
      simp [hk]
  · intro k hk
    exact fetch_others t heap h k hk
  · intro k
    unfold JobRegistry.contains
    rw [jobResult_registry]
    by_cases hk : k = h
    · simp [hk]
    · simp [hk]
  · intro hno
    have hv : JobRegistry.value t._jobSession h = none := by
      unfold JobRegistry.contains at hno
      cases hval : JobRegistry.value t._jobSession h with
      | none => rfl
      | some v => simp [hval] at hno
    simp only [SaveHistoryTask.jobResult, JobRegistry.index, hv]
    exact remove_insert_eq_self _ _ _ hv

/-- C19 as amended, at the task whose only job is 7 and the unknown handle 9: a
`jobResult(9)` leaves the registry as it was. -/
theorem C19_witness :
    ((oneJobTask (-1)).jobResult 9 0 "").1._jobSession = (oneJobTask (-1))._jobSession :=
  (C19_callbacks_add_no_other_entry (oneJobTask (-1)) (heapOf ["a"]) 9 0 "").2.2.2 rfl

/-! ## Sessions that are gone when `execute` runs -/

theorem executeLoop_completes (heap : Heap) (dialog : Nat → DialogAnswer) :
    ∀ (sessions : List SessionPtr) (i : Nat) (reg : JobRegistry),
      (∀ p ∈ sessions, ∃ s, deref heap p = some s) →
      ∃ r, SaveHistoryTask.executeLoop heap dialog i sessions reg = some r := by
  intro sessions
  induction sessions with
  | nil =>
    intro i reg _
    exact ⟨(reg, []), rfl⟩
  | cons p rest ih =>
    intro i reg hlive
    obtain ⟨s, hs⟩ := hlive p (List.mem_cons_self _ _)
    obtain ⟨ev0, hstep, -⟩ := executeSession_live heap (dialog i) p reg s hs
    obtain ⟨r, hr⟩ := ih (i + 1)
      (if (dialog i).creates = true then
        JobRegistry.insert reg (dialog i).job
          ⟨p, -1, chosenDecoder (dialog i).currentMimeFilter⟩
      else reg)
      (fun q hq => hlive q (List.mem_cons_of_mem _ hq))
    exact ⟨(r.1, ev0 ++ r.2), by simp only [SaveHistoryTask.executeLoop, hstep, hr]⟩

/-- C11, the claim refuted at a concrete input: the session at address 1 was
alive when it was added and is gone when `execute()` runs; neither
`SaveHistoryTask::execute()` nor `SearchHistoryTask::execute()` skips it, both
end in a fault (a call through the null pointer, a failed `Q_ASSERT`). -/
theorem C11_dead_session_is_not_skipped :
    (deref (heapOf ["a"]) (some 1)).isSome = true ∧
      (deref emptyHeap (some 1)).isSome = false ∧
      (SaveHistoryTask.mk (SessionTask.new.addSession (some 1)) []).execute emptyHeap acceptAll
        = none ∧
      (searchTask "error").sessions = [some 1] ∧
      (searchTask "error").execute emptyHeap = none := by
  decide

/-- C11 as amended: that the references are still valid is a precondition of
`execute()`. `SaveHistoryTask::execute()` completes when every session of the
list is alive; `SearchHistoryTask::execute()` asserts the first session
(`Q_ASSERT( sessions().first() )`): it completes exactly when that session is
alive, and fails, without a search, when it is gone. -/
theorem C11_execute_requires_live_sessions (st : SaveHistoryTask) (heapS : Heap)
    (dialog : Nat → DialogAnswer) (t : SearchHistoryTask) (heap : Heap) (first : SessionPtr)
    (rest : List SessionPtr)
    (hlive : ∀ p ∈ st.sessions, ∃ s, deref heapS p = some s)
    (hs : t.sessions = first :: rest) :
    (st.execute heapS dialog).isSome = true ∧
      (t.execute heap).isSome = (deref heap first).isSome ∧
      (deref heap first = none → t.execute heap = none) := by
  refine ⟨?_, ?_, ?_⟩
  · obtain ⟨r, hr⟩ := executeLoop_completes heapS dialog st.sessions 0 st._jobSession hlive
    simp [SaveHistoryTask.execute, hr]
  · cases hd : deref heap first with
    | none => simp [SearchHistoryTask.execute, hs, hd]
    | some s =>
      by_cases hp : t._regExp = ""
      · simp [SearchHistoryTask.execute, hs, hd, hp]
      · simp [SearchHistoryTask.execute, hs, hd, hp]
  · intro hd
    simp [SearchHistoryTask.execute, hs, hd]

/-- C11 as amended, at a save task with two live sessions and a search task
whose session is gone. -/
theorem C11_witness :
    (twoSessionTask.execute twoSessionHeap acceptAll).isSome = true ∧
      (searchTask "error").execute emptyHeap = none := by
  have h := C11_execute_requires_live_sessions twoSessionTask twoSessionHeap acceptAll
    (searchTask "error") emptyHeap (some 1) []
    (by
      intro p hp
      have hp2 : p = some 1 ∨ p = some 2 := by
        simpa [twoSessionTask, SessionTask.sessions, SessionTask.addSession,
          SessionTask.new] using hp
      rcases hp2 with h | h
      · exact ⟨_, by rw [h]; rfl⟩
      · exact ⟨_, by rw [h]; rfl⟩)
    rfl
  exact ⟨h.1, h.2.2 rfl⟩

/-! ## Disposal and the search stub, evaluated -/

/-- The events of `jobResult` end with `completed` and then, exactly when the
task deletes itself, one `deleteLater`. -/
theorem jobResult_disposal (t : SaveHistoryTask) (job : KJobPtr) (error : Int)
    (errorString : String) :
    ∃ before, Event.deleteLater ∉ before ∧ Event.completed ∉ before ∧
      (t.jobResult job error errorString).2
        = before ++ [Event.completed] ++ (if t.autoDelete then [Event.deleteLater] else []) := by
  refine ⟨(if error ≠ 0 then
      [Event.messageBox ("A problem occurred when saving the output.\n" ++ errorString)]
    else []) ++ [Event.deleteDecoder (JobRegistry.index t._jobSession job).2.decoder],
    ?_, ?_, ?_⟩
  · by_cases he : error = 0 <;> simp [he]
  · by_cases he : error = 0 <;> simp [he]
  · simp [SaveHistoryTask.jobResult]

/-- C12, at the failing input: a task that deletes itself and has the jobs 7 and
8. The result of job 7 emits `completed` and then requests `deleteLater`, while
job 8 is still registered; the result of job 8 requests it again. -/
theorem C12_deleteLater_requested_per_job :
    (SaveHistoryTask.mk (twoSessionTask.toSessionTask.setAutoDelete true) []).execute
          twoSessionHeap acceptAll
        = some (twoJobAutoTask,
            [Event.dialogExec "Save Output from first",
             Event.put ⟨"file:///tmp/history", true, true⟩ (-1) true false false,
             Event.connectJob 7,
             Event.dialogExec "Save Output from second",
             Event.put ⟨"file:///tmp/history", true, true⟩ (-1) true false false,
             Event.connectJob 8,
             Event.dialogDeleteLater]) ∧
      twoJobAutoTask.autoDelete = true ∧
      (twoJobAutoTask.jobResult 7 0 "").2
        = [Event.deleteDecoder DecoderPtr.plainText, Event.completed, Event.deleteLater] ∧
      JobRegistry.contains (twoJobAutoTask.jobResult 7 0 "").1._jobSession 8 = true ∧
      (deliverResults [(7, 0, ""), (8, 0, "")] twoJobAutoTask).2
        = [Event.deleteDecoder DecoderPtr.plainText, Event.completed, Event.deleteLater,
           Event.deleteDecoder DecoderPtr.plainText, Event.completed, Event.deleteLater] ∧
      deleteLaterCount (deliverResults [(7, 0, ""), (8, 0, "")] twoJobAutoTask).2 = 2 := by
  decide

/-- C13, at the failing input: the pattern "error", the case not mattering, on
a three-line buffer with "Error: x" on line 1. The buffer's search finds a
match; `execute()` starts the search and returns without a `foundMatch`, the
task being as before. -/
theorem C13_match_found_but_not_reported :
    (bufferOf ["", "Error: x", ""]).findTextNext "error" true false false = true ∧
      (searchTask "error").execute (heapOf ["", "Error: x", ""])
        = some (searchTask "error",
            [Event.findTextBegin (some 1),
             Event.findTextNext (some 1) "error" true false false]) ∧
      matchResults [Event.findTextBegin (some 1),
        Event.findTextNext (some 1) "error" true false false] = [] := by
  decide

/-- C14, at the failing input: a task set to search backwards, with the case
and as a regular expression; the request that `execute()` hands to the buffer
asks for a forward search, without the case, of a plain text. -/
theorem C14_settings_are_not_passed_on :
    configuredSearchTask.searchDirection = SearchDirection.Backwards ∧
      configuredSearchTask.matchCase = true ∧
      configuredSearchTask.matchRegExp = true ∧
      configuredSearchTask.regExp = "error" ∧
      configuredSearchTask.execute (heapOf ["an error"])
        = some (configuredSearchTask,
            [Event.findTextBegin (some 1),
             Event.findTextNext (some 1) "error" true false false]) := by
  decide

/-- C15, at the failing inputs: a search task with one live session, once with
the pattern "error" (a match is found), once with the empty pattern;
`execute()` returns without having emitted `completed`. -/
theorem C15_search_emits_no_completed :
    (searchTask "error").execute (heapOf ["", "Error: x", ""])
        = some (searchTask "error",
            [Event.findTextBegin (some 1),
             Event.findTextNext (some 1) "error" true false false]) ∧
      completedCount [Event.findTextBegin (some 1),
        Event.findTextNext (some 1) "error" true false false] = 0 ∧
      (searchTask "").execute (heapOf ["", "Error: x", ""]) = some (searchTask "", []) ∧
      completedCount [] = 0 := by
  decide

end Konsole
